import Mathlib

/-!
Verification development for the local-dns-forwarder repository.

The Rust sources under `src/` are shallowly embedded here:
* machine integers are `Nat` with explicit `% 256` where a `u8` store occurs;
* byte strings (`String` in the source when it denotes a DNS name) are
  `List Nat` of byte values; `String::to_lowercase` over ASCII data is the
  byte-wise `lowerByte` map;
* the fixed 512-byte packet array is a total function `Nat → Nat` together
  with the cursor `pos`; an out-of-bounds array index (a Rust panic) is the
  distinct result `RRes.crash`, kept apart from the `Err(...)` results of
  the source;
* fallible operations return `RRes`, whose `err` constructor carries the
  `dns::Error` of the source.
-/

namespace LDF

/-- `dns::Error` from `src/dns/error.rs`. The payload of `Io` is abstracted
away (no payload); it never occurs in the pure codec paths. -/
inductive DnsError where
  | endOfBuffer
  | jumpLimit (n : Nat)
  | singleLabelLimit
  | ioError
deriving DecidableEq, Repr

/-- Outcome of an embedded operation: `ok`, a source-level `Err(...)`, or a
Rust panic (out-of-bounds array index), which the source type system does not
surface as a value. -/
inductive RRes (α : Type) where
  | ok (a : α)
  | err (e : DnsError)
  | crash
deriving DecidableEq, Repr

namespace RRes

def isOk {α : Type} : RRes α → Bool
  | .ok _ => true
  | _ => false

end RRes

/-- `BytePacketBuffer` from `src/dns/byte_packet_buffer.rs`: a 512-byte
array and a cursor. The array is a total function; only indices `< 512`
are meaningful, and the embedded operations check bounds exactly where the
source does (`RRes.crash` marks the accesses the source performs without a
check). -/
structure BytePacketBuffer where
  buf : Nat → Nat
  pos : Nat

def BUF_SIZE : Nat := 512

/-- State-passing result monad over the packet buffer, so the embedded
operations read like the `&mut self` methods of the source. -/
def M (α : Type) : Type := BytePacketBuffer → RRes (α × BytePacketBuffer)

instance : Monad M where
  pure a := fun s => .ok (a, s)
  bind x f := fun s =>
    match x s with
    | .ok (a, s1) => f a s1
    | .err e => .err e
    | .crash => .crash

@[simp]
theorem M.run_pure {α : Type} (a : α) (s : BytePacketBuffer) :
    (pure a : M α) s = .ok (a, s) := rfl

@[simp]
theorem M.run_bind {α β : Type} (x : M α) (f : α → M β) (s : BytePacketBuffer) :
    (x >>= f) s =
      match x s with
      | .ok (a, s1) => f a s1
      | .err e => .err e
      | .crash => .crash := rfl

namespace BytePacketBuffer

/-- `BytePacketBuffer::new()`: zeroed buffer, cursor 0. -/
def new : BytePacketBuffer := ⟨fun _ => 0, 0⟩

/-- `step(steps)`: advance the cursor; always `Ok`. -/
def step (steps : Nat) : M Unit := fun s => .ok ((), ⟨s.buf, s.pos + steps⟩)

/-- `seek(pos)`: set the cursor; always `Ok`. -/
def seek (p : Nat) : M Unit := fun s => .ok ((), ⟨s.buf, p⟩)

/-- `read()`: one byte at the cursor, advancing it. The bound check covers
the array access, so no crash case arises. -/
def read : M Nat := fun s =>
  if s.pos < BUF_SIZE then .ok (s.buf s.pos, ⟨s.buf, s.pos + 1⟩)
  else .err .endOfBuffer

/-- `read_range(len)`: `len` bytes from the cursor, advancing it. The source
guard is `pos + len < BUF_SIZE` (strict), rejecting exactly-fitting reads. -/
def read_range (len : Nat) : M (List Nat) := fun s =>
  if s.pos + len < BUF_SIZE then
    .ok ((List.range len).map (fun i => s.buf (s.pos + i)), ⟨s.buf, s.pos + len⟩)
  else .err .endOfBuffer

/-- `get(pos)`: random access, not advancing. The source checks `self.pos`
(the cursor), not the argument, then indexes the array with the argument:
an argument `≥ 512` under a cursor `< 512` is an unchecked out-of-bounds
index, i.e. a panic. -/
def get (s : BytePacketBuffer) (p : Nat) : RRes Nat :=
  if s.pos < BUF_SIZE then
    if p < BUF_SIZE then .ok (s.buf p) else .crash
  else .err .endOfBuffer

/-- `get_range(pos, len)`: random access slice, not advancing; same strict
`pos + len < BUF_SIZE` guard as `read_range`. -/
def get_range (s : BytePacketBuffer) (p len : Nat) : RRes (List Nat) :=
  if p + len < BUF_SIZE then .ok ((List.range len).map (fun i => s.buf (p + i)))
  else .err .endOfBuffer

/-- `get_all()`: the bytes below the cursor (guard again strict). -/
def get_all (s : BytePacketBuffer) : RRes (List Nat) :=
  if s.pos < BUF_SIZE then .ok ((List.range s.pos).map (fun i => s.buf i))
  else .err .endOfBuffer

/-- `read_u16()`: two big-endian bytes. -/
def read_u16 : M Nat := do
  let a ← read
  let b ← read
  pure ((a <<< 8) ||| b)

/-- `read_u32()`: four big-endian bytes. -/
def read_u32 : M Nat := do
  let a ← read
  let b ← read
  let c ← read
  let d ← read
  pure ((a <<< 24) ||| (b <<< 16) ||| (c <<< 8) ||| d)

/-- `write(v)`: store `v` as a `u8` at the cursor, advancing it. The `% 256`
models the `u8` argument type. -/
def write (v : Nat) : M Unit := fun s =>
  if s.pos < BUF_SIZE then
    .ok ((), ⟨fun j => if j = s.pos then v % 256 else s.buf j, s.pos + 1⟩)
  else .err .endOfBuffer

/-- `write_u8(v)`. -/
def write_u8 (v : Nat) : M Unit := write v

/-- `write_u16(v)`: high byte then `v & 0xFF`. -/
def write_u16 (v : Nat) : M Unit := do
  write (v >>> 8)
  write (v &&& 0xFF)

/-- `write_u32(v)`: four big-endian bytes, each masked with `0xFF`. -/
def write_u32 (v : Nat) : M Unit := do
  write ((v >>> 24) &&& 0xFF)
  write ((v >>> 16) &&& 0xFF)
  write ((v >>> 8) &&& 0xFF)
  write (v &&& 0xFF)

/-- `write_range(v)`: block copy at the cursor; the source guard is the
strict `pos + v.len() < BUF_SIZE` and the cursor is NOT advanced (the source
omits `self.pos += v.len()`; see the C3 analysis). -/
def write_range (v : List Nat) : M Unit := fun s =>
  if s.pos + v.length < BUF_SIZE then
    .ok ((), ⟨fun j => if s.pos ≤ j ∧ j < s.pos + v.length
                       then v.getD (j - s.pos) 0 % 256 else s.buf j,
              s.pos⟩)
  else .err .endOfBuffer

end BytePacketBuffer

/-- Abort the current operation with a source-level `Err(...)`. -/
def M.throw {α : Type} (e : DnsError) : M α := fun _ => .err e

/-- ASCII lowercase of one byte: `String::to_lowercase` restricted to the
ASCII byte strings this embedding uses for names. -/
def lowerByte (b : Nat) : Nat := if 65 ≤ b ∧ b ≤ 90 then b + 32 else b

/-- Byte-wise lowercase of a byte string. -/
def lowerBytes (l : List Nat) : List Nat := l.map lowerByte

/-- Rust `str::split('.')` over byte strings (46 = `.`): the empty string
yields one empty piece, consecutive dots yield empty pieces. -/
def splitDot : List Nat → List (List Nat)
  | [] => [[]]
  | b :: rest =>
    if b = 46 then [] :: splitDot rest
    else
      match splitDot rest with
      | [] => [[b]]
      | l :: ls => (b :: l) :: ls

/-- Join byte strings with `.` (inverse of `splitDot`). -/
def joinDot : List (List Nat) → List Nat
  | [] => []
  | [l] => l
  | l :: ls => l ++ 46 :: joinDot ls

/-- `max_jumps` from `read_qname`. -/
def maxJumps : Nat := 5

namespace BytePacketBuffer

/-- The loop of `read_qname()`, with explicit fuel (the source loop always
terminates: labels strictly advance the local position and the array access
panics past 512, and jumps are capped; fuel 4000 is never exhausted).
State: local position `p`, `jumped`, `jumps_performed`, accumulated `ret`
and `delim`. Returns the name together with the number of pointer jumps
performed. -/
def read_qname_aux : Nat → BytePacketBuffer → Nat → Bool → Nat → List Nat → List Nat →
    RRes ((List Nat × Nat) × BytePacketBuffer)
  | 0, _, _, _, _, _, _ => .crash
  | fuel + 1, s, p, jumped, jumps, ret, delim =>
    if jumps > maxJumps then .err (.jumpLimit maxJumps)
    else
      match s.get p with
      | .err e => .err e
      | .crash => .crash
      | .ok len =>
        if len &&& 0xC0 = 0xC0 then
          match (if jumped then s else ⟨s.buf, p + 2⟩ : BytePacketBuffer).get (p + 1) with
          | .err e => .err e
          | .crash => .crash
          | .ok b2 =>
            read_qname_aux fuel (if jumped then s else ⟨s.buf, p + 2⟩)
              (((len ^^^ 0xC0) <<< 8) ||| b2) true (jumps + 1) ret delim
        else
          if len = 0 then
            .ok ((ret, jumps), if jumped then s else ⟨s.buf, p + 1⟩)
          else
            match s.get_range (p + 1) len with
            | .err e => .err e
            | .crash => .crash
            | .ok str =>
              read_qname_aux fuel s (p + 1 + len) jumped jumps
                (ret ++ delim ++ lowerBytes str) [46]

/-- `read_qname()` with the jump count exposed. -/
def read_qname_full (s : BytePacketBuffer) : RRes ((List Nat × Nat) × BytePacketBuffer) :=
  read_qname_aux 4000 s s.pos false 0 [] []

/-- `read_qname()` as the source exposes it. -/
def read_qname : M (List Nat) := fun s =>
  match read_qname_full s with
  | .ok ((name, _), s1) => .ok (name, s1)
  | .err e => .err e
  | .crash => .crash

/-- The name returned by `read_qname()`, buffer state dropped. -/
def read_qname_name (s : BytePacketBuffer) : RRes (List Nat) :=
  match read_qname_full s with
  | .ok ((name, _), _) => .ok name
  | .err e => .err e
  | .crash => .crash

/-- The number of pointer jumps a `read_qname()` call performs. -/
def read_qname_jumps (s : BytePacketBuffer) : RRes Nat :=
  match read_qname_full s with
  | .ok ((_, jumps), _) => .ok jumps
  | .err e => .err e
  | .crash => .crash

/-- Body of the label loop of `write_qname`: write the bytes of one label. -/
def write_label_bytes : List Nat → M Unit
  | [] => pure ()
  | b :: rest => do
    write_u8 b
    write_label_bytes rest

/-- The label loop of `write_qname(name)`: for each piece of the split,
enforce the 63-byte limit, write the length byte, then the bytes. -/
def write_labels : List (List Nat) → M Unit
  | [] => pure ()
  | label :: rest => do
    if label.length > 0x3f then M.throw .singleLabelLimit
    else do
      write_u8 label.length
      write_label_bytes label
    write_labels rest

/-- `write_qname(name)`: split on `.`, write each label, finish with 0. -/
def write_qname (qname : List Nat) : M Unit := do
  write_labels (splitDot qname)
  write_u8 0

end BytePacketBuffer

open BytePacketBuffer

/-- `QueryType` from `src/dns/query_type.rs` (declaration order preserved;
the catch-all keeps the numeric code). -/
inductive QueryType where
  | UNKNOWN (v : Nat)
  | A
  | AAAA
  | CNAME
  | SRV
deriving DecidableEq, Repr

/-- `From<QueryType> for u16`. -/
def QueryType.toU16 : QueryType → Nat
  | .UNKNOWN v => v
  | .A => 1
  | .AAAA => 28
  | .CNAME => 5
  | .SRV => 33

/-- `From<u16> for QueryType`. -/
def QueryType.fromU16 (v : Nat) : QueryType :=
  match v with
  | 1 => .A
  | 5 => .CNAME
  | 28 => .AAAA
  | 33 => .SRV
  | _ => .UNKNOWN v

/-- `ResultCode` from `src/dns/result_code.rs`. -/
inductive ResultCode where
  | NoError
  | FormErr
  | ServFail
  | NXDomain
  | NotImp
  | Refused
  | YXDomain
  | YXRRSet
  | NXRRSet
  | NotAuth
  | NotZone
  | DSOTYPENI
  | BADVERS
  | BADKEY
  | BADTIME
  | BADMODE
  | BADNAME
  | BADALG
  | BADTRUNC
  | BADCOOKIE
deriving DecidableEq, Repr

/-- The enum discriminants of `ResultCode` (`self.rescode as u8`). -/
def ResultCode.toU8 : ResultCode → Nat
  | .NoError => 0
  | .FormErr => 1
  | .ServFail => 2
  | .NXDomain => 3
  | .NotImp => 4
  | .Refused => 5
  | .YXDomain => 6
  | .YXRRSet => 7
  | .NXRRSet => 8
  | .NotAuth => 9
  | .NotZone => 10
  | .DSOTYPENI => 11
  | .BADVERS => 16
  | .BADKEY => 17
  | .BADTIME => 18
  | .BADMODE => 19
  | .BADNAME => 20
  | .BADALG => 21
  | .BADTRUNC => 22
  | .BADCOOKIE => 23

/-- `From<u8> for ResultCode`: unknown values (incl. 12–15) map to NoError. -/
def ResultCode.fromU8 (v : Nat) : ResultCode :=
  match v with
  | 0 => .NoError
  | 1 => .FormErr
  | 2 => .ServFail
  | 3 => .NXDomain
  | 4 => .NotImp
  | 5 => .Refused
  | 6 => .YXDomain
  | 7 => .YXRRSet
  | 8 => .NXRRSet
  | 9 => .NotAuth
  | 10 => .NotZone
  | 11 => .DSOTYPENI
  | 16 => .BADVERS
  | 17 => .BADKEY
  | 18 => .BADTIME
  | 19 => .BADMODE
  | 20 => .BADNAME
  | 21 => .BADALG
  | 22 => .BADTRUNC
  | 23 => .BADCOOKIE
  | _ => .NoError

/-- `Header` from `src/dns/header.rs`. -/
structure Header where
  id : Nat
  recursion_desired : Bool
  truncated_message : Bool
  authoritative_answer : Bool
  opcode : Nat
  response : Bool
  rescode : ResultCode
  checking_disabled : Bool
  authed_data : Bool
  z : Bool
  recursion_available : Bool
  questions : Nat
  answers : Nat
  authoritative_entries : Nat
  resource_entries : Nat
deriving DecidableEq, Repr

/-- `Header::new()`. -/
def Header.new : Header :=
  ⟨0, false, false, false, 0, false, .NoError, false, false, false, false, 0, 0, 0, 0⟩

/-- `Header::read`. -/
def Header.read : M Header := do
  let id ← read_u16
  let flags ← read_u16
  let a := flags >>> 8
  let b := flags &&& 0xFF
  let questions ← read_u16
  let answers ← read_u16
  let authoritative_entries ← read_u16
  let resource_entries ← read_u16
  pure
    { id := id
      recursion_desired := decide (0 < a &&& (1 <<< 0))
      truncated_message := decide (0 < a &&& (1 <<< 1))
      authoritative_answer := decide (0 < a &&& (1 <<< 2))
      opcode := (a >>> 3) &&& 0x0F
      response := decide (0 < a &&& (1 <<< 7))
      rescode := ResultCode.fromU8 (b &&& 0x0F)
      checking_disabled := decide (0 < b &&& (1 <<< 4))
      authed_data := decide (0 < b &&& (1 <<< 5))
      z := decide (0 < b &&& (1 <<< 6))
      recursion_available := decide (0 < b &&& (1 <<< 7))
      questions := questions
      answers := answers
      authoritative_entries := authoritative_entries
      resource_entries := resource_entries }

/-- `Header::write`. -/
def Header.write (h : Header) : M Unit := do
  write_u16 h.id
  write_u8 (h.recursion_desired.toNat
    ||| (h.truncated_message.toNat <<< 1)
    ||| (h.authoritative_answer.toNat <<< 2)
    ||| (h.opcode <<< 3)
    ||| (h.response.toNat <<< 7))
  write_u8 (h.rescode.toU8
    ||| (h.checking_disabled.toNat <<< 4)
    ||| (h.authed_data.toNat <<< 5)
    ||| (h.z.toNat <<< 6)
    ||| (h.recursion_available.toNat <<< 7))
  write_u16 h.questions
  write_u16 h.answers
  write_u16 h.authoritative_entries
  write_u16 h.resource_entries

/-- `Question` from `src/dns/question.rs` (`class` is a Lean keyword, hence
the field name `qclass`). -/
structure Question where
  name : List Nat
  qtype : QueryType
  qclass : Nat
deriving DecidableEq, Repr

/-- `Question::read`. -/
def Question.read : M Question := do
  let name ← read_qname
  let t ← read_u16
  let qclass ← read_u16
  pure ⟨name, QueryType.fromU16 t, qclass⟩

/-- `Question::write`. -/
def Question.write (q : Question) : M Unit := do
  write_qname q.name
  write_u16 q.qtype.toU16
  write_u16 q.qclass

/-- `std::net::Ipv4Addr`, as its four octets. -/
structure Ipv4Addr where
  o0 : Nat
  o1 : Nat
  o2 : Nat
  o3 : Nat
deriving DecidableEq, Repr

/-- `std::net::Ipv6Addr`, as its eight 16-bit segments. -/
structure Ipv6Addr where
  s0 : Nat
  s1 : Nat
  s2 : Nat
  s3 : Nat
  s4 : Nat
  s5 : Nat
  s6 : Nat
  s7 : Nat
deriving DecidableEq, Repr

/-- `SrvRecord` from `src/dns/record.rs`. -/
structure SrvRecord where
  priority : Nat
  weight : Nat
  port : Nat
  target : List Nat
deriving DecidableEq, Repr

/-- `RData` from `src/dns/record.rs`. -/
inductive RData where
  | Unknown (qtype : QueryType) (bytes : List Nat)
  | A (addr : Ipv4Addr)
  | AAAA (addr : Ipv6Addr)
  | CNAME (len : Nat) (name : List Nat)
  | SRV (len : Nat) (record : SrvRecord)
deriving DecidableEq, Repr

/-- `Record` from `src/dns/record.rs`. -/
structure Record where
  name : List Nat
  qtype : QueryType
  qclass : Nat
  ttl : Nat
  rdlength : Nat
  rdata : RData
deriving DecidableEq, Repr

/-- `Record::read`. -/
def Record.read : M Record := do
  let name ← read_qname
  let t ← read_u16
  let qtype := QueryType.fromU16 t
  let qclass ← read_u16
  let ttl ← read_u32
  let rdlen ← read_u16
  let rdata ←
    match qtype with
    | .A => do
        let addr ← read_u32
        pure (RData.A ⟨(addr >>> 24) &&& 0xFF, (addr >>> 16) &&& 0xFF,
                       (addr >>> 8) &&& 0xFF, addr &&& 0xFF⟩)
    | .AAAA => do
        let addr1 ← read_u32
        let addr2 ← read_u32
        let addr3 ← read_u32
        let addr4 ← read_u32
        pure (RData.AAAA ⟨(addr1 >>> 16) &&& 0xFFFF, addr1 &&& 0xFFFF,
                          (addr2 >>> 16) &&& 0xFFFF, addr2 &&& 0xFFFF,
                          (addr3 >>> 16) &&& 0xFFFF, addr3 &&& 0xFFFF,
                          (addr4 >>> 16) &&& 0xFFFF, addr4 &&& 0xFFFF⟩)
    | .CNAME => do
        let target ← read_qname
        pure (RData.CNAME rdlen target)
    | .SRV => do
        let priority ← read_u16
        let weight ← read_u16
        let port ← read_u16
        let target ← read_qname
        pure (RData.SRV rdlen ⟨priority, weight, port, target⟩)
    | .UNKNOWN _ => do
        let v ← read_range rdlen
        pure (RData.Unknown qtype v)
  pure ⟨name, qtype, qclass, ttl, rdlen, rdata⟩

/-- `Record::write`. The source returns the number of bytes written
(`buf.pos() - p`); every caller in `src/` discards it, so the embedding
returns `Unit`. -/
def Record.write (r : Record) : M Unit :=
  match r.rdata with
  | .A addr => do
      write_qname r.name
      write_u16 QueryType.A.toU16
      write_u16 r.qclass
      write_u32 r.ttl
      write_u16 4
      write_u8 addr.o0
      write_u8 addr.o1
      write_u8 addr.o2
      write_u8 addr.o3
  | .AAAA addr => do
      write_qname r.name
      write_u16 QueryType.AAAA.toU16
      write_u16 r.qclass
      write_u32 r.ttl
      write_u16 16
      write_u16 addr.s0
      write_u16 addr.s1
      write_u16 addr.s2
      write_u16 addr.s3
      write_u16 addr.s4
      write_u16 addr.s5
      write_u16 addr.s6
      write_u16 addr.s7
  | .CNAME len name => do
      write_qname r.name
      write_u16 QueryType.CNAME.toU16
      write_u16 r.qclass
      write_u32 r.ttl
      write_u16 len
      write_qname name
  | .SRV len v => do
      write_qname r.name
      write_u16 QueryType.SRV.toU16
      write_u16 r.qclass
      write_u32 r.ttl
      write_u16 len
      write_u16 v.priority
      write_u16 v.weight
      write_u16 v.port
      write_qname v.target
  | .Unknown qtype v => do
      write_qname r.name
      write_u16 qtype.toU16
      write_u16 r.qclass
      write_u32 r.ttl
      write_u16 v.length
      write_range v

/-- `Message` from `src/dns/message.rs`. -/
structure Message where
  header : Header
  questions : List Question
  answers : List Record
  authorities : List Record
  resources : List Record
deriving DecidableEq, Repr

/-- `Message::new()`. -/
def Message.new : Message := ⟨Header.new, [], [], [], []⟩

/-- The `for _ in 0..n` question-reading loop of `Message::read`. -/
def readQuestions : Nat → M (List Question)
  | 0 => pure []
  | n + 1 => do
    let q ← Question.read
    let rest ← readQuestions n
    pure (q :: rest)

/-- The record-reading loops of `Message::read`. -/
def readRecords : Nat → M (List Record)
  | 0 => pure []
  | n + 1 => do
    let r ← Record.read
    let rest ← readRecords n
    pure (r :: rest)

/-- `Message::read`: header, then the counters drive the four groups. -/
def Message.read : M Message := do
  let header ← Header.read
  let questions ← readQuestions header.questions
  let answers ← readRecords header.answers
  let authorities ← readRecords header.authoritative_entries
  let resources ← readRecords header.resource_entries
  pure ⟨header, questions, answers, authorities, resources⟩

/-- The counter normalization `Message::write` performs on `self.header`
before encoding (`as u16` casts included). -/
def Message.normalizeCounts (m : Message) : Message :=
  { m with
    header :=
      { m.header with
        questions := m.questions.length % 65536
        answers := m.answers.length % 65536
        authoritative_entries := m.authorities.length % 65536
        resource_entries := m.resources.length % 65536 } }

/-- The question-writing loop of `Message::write`. -/
def writeQuestions : List Question → M Unit
  | [] => pure ()
  | q :: rest => do
    q.write
    writeQuestions rest

/-- The record-writing loops of `Message::write`. -/
def writeRecords : List Record → M Unit
  | [] => pure ()
  | r :: rest => do
    r.write
    writeRecords rest

/-- `Message::write`: normalize the section counters from the group
lengths, then write header and groups in order. -/
def Message.write (m : Message) : M Unit :=
  let m1 := m.normalizeCounts
  do
    m1.header.write
    writeQuestions m1.questions
    writeRecords m1.answers
    writeRecords m1.authorities
    writeRecords m1.resources

/-- Run `Message::write` on a fresh buffer; `some` of the final buffer on
success. -/
def writeResultBuf (m : Message) : Option BytePacketBuffer :=
  match m.write BytePacketBuffer.new with
  | .ok ((), s1) => some s1
  | _ => none

/-- Run `Message::read` from the given buffer, keeping the message only. -/
def readMsg (s : BytePacketBuffer) : RRes Message :=
  match Message.read s with
  | .ok (m, _) => .ok m
  | .err e => .err e
  | .crash => .crash

/-- Decode the buffer produced by `Message::write(m)` from position 0. -/
def decodeOfWrite (m : Message) : RRes Message :=
  match writeResultBuf m with
  | some s1 => readMsg ⟨s1.buf, 0⟩
  | none => .crash

/-- `CheckStatus` from `src/filters/composite_checklist.rs`. -/
inductive CheckStatus where
  | NotFound
  | Allow
  | Deny
deriving DecidableEq, Repr

/-- Discriminant of `QueryType` under `#[repr(u16)]` (explicit values,
`UNKNOWN` first and unassigned, hence 0); the derived `Ord` used by the
`BTreeMap` in `ResolvedData` compares these first. -/
def QueryType.discr : QueryType → Nat
  | .UNKNOWN _ => 0
  | .A => 1
  | .AAAA => 28
  | .CNAME => 5
  | .SRV => 33

/-- The derived strict order on `QueryType` (discriminants, then payload). -/
def QueryType.ltQ (a b : QueryType) : Bool :=
  match a, b with
  | .UNKNOWN x, .UNKNOWN y => x < y
  | _, _ => a.discr < b.discr

/-- The value strings pushed into `ResolvedData::resp` (`to_string()` of
addresses and targets, `""` for Unknown); kept structural since no claim
depends on the rendered text. -/
inductive RespVal where
  | ipv4 (addr : Ipv4Addr)
  | ipv6 (addr : Ipv6Addr)
  | nameVal (name : List Nat)
  | srvVal (priority weight port : Nat) (target : List Nat)
  | emptyStr
deriving DecidableEq, Repr

/-- `ResolvedData` from `src/resolved_data.rs`; the `BTreeMap` is a sorted
association list under the derived `QueryType` order. -/
structure ResolvedData where
  req_qtype : QueryType
  req_name : List Nat
  resp : List (QueryType × List RespVal)
deriving DecidableEq, Repr

/-- `BTreeMap::entry(k).or_default().push(v)`. -/
def insertResp (k : QueryType) (v : RespVal) :
    List (QueryType × List RespVal) → List (QueryType × List RespVal)
  | [] => [(k, [v])]
  | (k1, vs) :: rest =>
    if k = k1 then (k1, vs ++ [v]) :: rest
    else if QueryType.ltQ k k1 then (k, [v]) :: (k1, vs) :: rest
    else (k1, vs) :: insertResp k v rest

/-- `ResolvedData::new`. -/
def ResolvedData.new (req_qtype : QueryType) (req_name : List Nat) : ResolvedData :=
  ⟨req_qtype, req_name, []⟩

/-- `ResolvedData::insert`. -/
def ResolvedData.insert (d : ResolvedData) (q : QueryType) (v : RespVal) : ResolvedData :=
  { d with resp := insertResp q v d.resp }

/-- `ResolvedStatus` from `src/resolved_status.rs`. -/
inductive ResolvedStatus where
  | Deny (data : ResolvedData) (code : ResultCode)
  | Allow (data : ResolvedData)
  | AllowButError (data : ResolvedData) (code : ResultCode)
  | NoCheck (data : ResolvedData)
  | NoCheckButError (data : ResolvedData) (code : ResultCode)
deriving DecidableEq, Repr

/-- `ResolvedStatus::into_nocheck`. -/
def ResolvedStatus.into_nocheck : ResolvedStatus → ResolvedStatus
  | .Allow v => .NoCheck v
  | .AllowButError v code => .NoCheckButError v code
  | v => v

/-- The calls `Runner::on_recv` makes on its `ResolveEvent` for one
datagram: `resolved(status)`, or `error(format!("{id}: {rescode}"))` for
the missing-question branch (kept structural). -/
inductive REvent where
  | resolved (status : ResolvedStatus)
  | errorEv (id : Nat) (code : ResultCode)
deriving DecidableEq, Repr

/-- The response message `Runner::make_error_resp_msg` builds: a fresh
message mirroring `id`, `recursion_desired`, `recursion_available` and
`response` from the request, with the given `rescode`. -/
def mkErrorRespMsg (req : Message) (rc : ResultCode) : Message :=
  { Message.new with
    header :=
      { Header.new with
        id := req.header.id
        recursion_desired := req.header.recursion_desired
        recursion_available := req.header.recursion_available
        response := req.header.response
        rescode := rc } }

/-- `Runner::make_error_resp_msg`: build the mirror message and encode it
into a fresh buffer. -/
def make_error_resp_msg (req : Message) (rc : ResultCode) :
    RRes (Message × BytePacketBuffer) :=
  match (mkErrorRespMsg req rc).write BytePacketBuffer.new with
  | .ok ((), s1) => .ok (mkErrorRespMsg req rc, s1)
  | .err e => .err e
  | .crash => .crash

/-- Outcome of the `dns::lookup` upstream exchange, supplied as an oracle:
`none` is `Err(_)` (socket or parse failure), `some (resp_buf, result)` is
`Ok((resp_buf, result))`. -/
def LookupResult : Type := Option (List Nat × Message)

/-- `Runner::lookup` (its upstream exchange replaced by the oracle): build
the `ResolvedData` from the parsed answers and replace `raw` with the raw
upstream bytes on success; on failure leave `raw` unchanged and report
`AllowButError(_, ServFail)`. Returns (status, raw). -/
def runnerLookup (question : Question) (lr : LookupResult) (raw : List Nat) :
    ResolvedStatus × List Nat :=
  let res_data := ResolvedData.new question.qtype question.name
  match lr with
  | some (resp_buf, result) =>
    let d := result.answers.foldl
      (fun d rec =>
        match rec.rdata with
        | .A v => d.insert .A (.ipv4 v)
        | .AAAA v => d.insert .AAAA (.ipv6 v)
        | .CNAME _ v => d.insert .CNAME (.nameVal v)
        | .SRV _ v => d.insert .SRV (.srvVal v.priority v.weight v.port v.target)
        | .Unknown qtype _ => d.insert (.UNKNOWN qtype.toU16) .emptyStr)
      res_data
    if result.header.rescode = .NoError then (.Allow d, resp_buf)
    else (.AllowButError d result.header.rescode, resp_buf)
  | none => (.AllowButError res_data .ServFail, raw)

/-- One `Runner::on_recv` iteration after the datagram has been decoded
into `req`, with the classification (`Runner::check` under a successful
read lock) and the upstream exchange supplied as oracles. Returns the
datagram sent back to the client (`raw_buf`, initially empty) and the
events emitted, or the propagated codec error. -/
def onRecv (req : Message) (cls : CheckStatus) (lr : LookupResult) :
    RRes (List Nat × List REvent) :=
  match req.questions.getLast? with
  | some question =>
    if question.qtype = QueryType.A ∨ question.qtype = QueryType.AAAA then
      match cls with
      | .Deny =>
        match make_error_resp_msg req .NXDomain with
        | .ok (_, resp_buffer) =>
          match resp_buffer.get_all with
          | .ok bs => .ok (bs, [])
          | .err e => .err e
          | .crash => .crash
        | .err e => .err e
        | .crash => .crash
      | .Allow =>
        let (status, raw) := runnerLookup question lr []
        .ok (raw, [.resolved status])
      | .NotFound =>
        match make_error_resp_msg req .NXDomain with
        | .ok (resp, resp_buffer) =>
          match resp_buffer.get_all with
          | .ok bs =>
            .ok (bs, [.resolved (.Deny (ResolvedData.new question.qtype question.name)
                                       resp.header.rescode)])
          | .err e => .err e
          | .crash => .crash
        | .err e => .err e
        | .crash => .crash
    else
      let (status, raw) := runnerLookup question lr []
      .ok (raw, [.resolved status.into_nocheck])
  | none =>
    match make_error_resp_msg req .FormErr with
    | .ok (resp, resp_buffer) =>
      match resp_buffer.get_all with
      | .ok bs => .ok (bs, [.errorEv req.header.id resp.header.rescode])
      | .err e => .err e
      | .crash => .crash
    | .err e => .err e
    | .crash => .crash

/-- The datagram `on_recv` sends back to the client. -/
def onRecvRaw (req : Message) (cls : CheckStatus) (lr : LookupResult) : RRes (List Nat) :=
  match onRecv req cls lr with
  | .ok (raw, _) => .ok raw
  | .err e => .err e
  | .crash => .crash

/-- The events `on_recv` emits. -/
def onRecvEvents (req : Message) (cls : CheckStatus) (lr : LookupResult) :
    RRes (List REvent) :=
  match onRecv req cls lr with
  | .ok (_, events) => .ok events
  | .err e => .err e
  | .crash => .crash

/-- Modelled from the spec: the glob semantics of the external `wildmatch`
crate (§4.D): `*` matches any run including the empty one, `?` matches
exactly one character, everything else literally, anchored at both ends. -/
def wildMatch : List Char → List Char → Bool
  | [], [] => true
  | [], _ :: _ => false
  | p :: ps, text =>
    if p = '*' then
      match text with
      | [] => wildMatch ps []
      | _ :: ts => wildMatch ps text || wildMatch (p :: ps) ts
    else
      match text with
      | [] => false
      | t :: ts => (p = t || p = '?') && wildMatch ps ts
termination_by p t => (p.length, t.length)
decreasing_by all_goals (simp_wf; omega)

/-- Glob match on strings. -/
def wildMatchStr (pattern text : String) : Bool :=
  wildMatch pattern.toList text.toList

/-- `InMemoryAllowList` from `src/allowlist.rs` (the `CheckList` the
binary re-exports). The two hash maps are lists of their keys: `names`
holds the keys of `names: HashMap<String, ()>`, `wnames` the keys of
`wnames: HashMap<String, WildMatch>` (the compiled matcher is a pure
function of the key). -/
structure InMemoryAllowList where
  path : Option String
  names : List String
  wnames : List String
deriving DecidableEq, Repr

/-- `InMemoryAllowList::new`. -/
def InMemoryAllowList.new : InMemoryAllowList := ⟨none, [], []⟩

/-- `InMemoryAllowList::check`: exact names first, then any pattern. -/
def InMemoryAllowList.check (l : InMemoryAllowList) (name : String) : Bool :=
  if l.names.contains name then true
  else l.wnames.any (fun w => wildMatchStr w name)

/-- `InMemoryAllowList::add`: an argument containing `*` routes to
`wnames`, everything else to `names`; 1 when inserted, 0 when already
present. -/
def InMemoryAllowList.add (l : InMemoryAllowList) (name : String) :
    Nat × InMemoryAllowList :=
  if name.contains '*' then
    if l.wnames.contains name then (0, l)
    else (1, { l with wnames := l.wnames ++ [name] })
  else if l.names.contains name then (0, l)
  else (1, { l with names := l.names ++ [name] })

/-- `InMemoryAllowList::delete`: `self.names.remove(name)`; 1 when the key
was present, 0 otherwise. -/
def InMemoryAllowList.delete (l : InMemoryAllowList) (name : String) :
    Nat × InMemoryAllowList :=
  if l.names.contains name then (1, { l with names := l.names.erase name })
  else (0, l)

/-- `InMemoryAllowList::count`. -/
def InMemoryAllowList.count (l : InMemoryAllowList) : Nat :=
  l.names.length + l.wnames.length

/-- `InMemoryAllowList::iter`: exact names, then patterns. -/
def InMemoryAllowList.iter (l : InMemoryAllowList) : List String :=
  l.names ++ l.wnames

/-- Top-level `Error` from `src/error.rs` (the `Io` payload abstracted). -/
inductive LffError where
  | DNS (e : DnsError)
  | Io
  | SaveButInMemory
deriving DecidableEq, Repr

/-- The `Display` text of the errors: the `#[error(...)]` attributes of
`src/error.rs` and the `Display` impl of `src/dns/error.rs`. -/
def LffError.display : LffError → String
  | .DNS .endOfBuffer => "End of buffer"
  | .DNS (.jumpLimit v) => "Limit of " ++ toString v ++ " jumps exceeded"
  | .DNS .singleLabelLimit => "Single label exceeds 63 characters of length"
  | .DNS .ioError => ""
  | .Io => ""
  | .SaveButInMemory => "In-memory mode"

/-- `InMemoryAllowList::save`: without an attached path fail with
`SaveButInMemory`; with one, write sorted exact names then sorted patterns
(the file write itself is I/O, modelled as returning the written lines). -/
def InMemoryAllowList.save (l : InMemoryAllowList) : Except LffError (List String) :=
  match l.path with
  | some _ =>
    .ok (l.names.mergeSort (fun a b => !(b < a)) ++ l.wnames.mergeSort (fun a b => !(b < a)))
  | none => .error .SaveButInMemory

/-- `CompositeCheckList` from `src/filters/composite_checklist.rs`, over
the in-memory checklists. -/
structure CompositeCheckList where
  allowlist : InMemoryAllowList
  denylist : InMemoryAllowList
deriving DecidableEq, Repr

/-- `CompositeCheckList::check`: deny wins, then allow, else not found. -/
def CompositeCheckList.check (c : CompositeCheckList) (name : String) : CheckStatus :=
  if c.denylist.check name then .Deny
  else if c.allowlist.check name then .Allow
  else .NotFound

/-- `tracing::Level` of the external logger collaborator. -/
inductive LogLevel where
  | error
  | warn
  | info
  | debug
  | trace
deriving DecidableEq, Repr

/-- Rust `str::split(' ')` over the characters of a string (same
semantics as `splitDot` over bytes: the empty string yields one empty
piece, consecutive separators yield empty pieces). -/
def splitChar (c : Char) : List Char → List (List Char)
  | [] => [[]]
  | b :: rest =>
    if b = c then [] :: splitChar c rest
    else
      match splitChar c rest with
      | [] => [[b]]
      | l :: ls => (b :: l) :: ls

/-- `command.split(' ').collect::<Vec<_>>()`. -/
def splitSpace (s : String) : List String :=
  (splitChar ' ' s.data).map (fun l => ⟨l⟩)

/-- `str::to_lowercase` restricted to the ASCII command verbs this
dispatcher compares against. -/
def lowerChar (ch : Char) : Char :=
  if 65 ≤ ch.toNat ∧ ch.toNat ≤ 90 then Char.ofNat (ch.toNat + 32) else ch

/-- ASCII `to_lowercase` on a string. -/
def lowerStr (s : String) : String := ⟨s.data.map lowerChar⟩

/-- Modelled from the spec: `tracing::Level::from_str` for the five level
names of §6 (external collaborator), case-insensitive. -/
def parseLevel (st : String) : Option LogLevel :=
  match lowerStr st with
  | "error" => some .error
  | "warn" => some .warn
  | "info" => some .info
  | "debug" => some .debug
  | "trace" => some .trace
  | _ => none

/-- Modelled from the spec: the `Display` text of `tracing::Level`
(uppercase names). -/
def LogLevel.display : LogLevel → String
  | .error => "ERROR"
  | .warn => "WARN"
  | .info => "INFO"
  | .debug => "DEBUG"
  | .trace => "TRACE"

/-- One `tracing` line emitted by `on_ipctl`, with its level. -/
inductive LogMsg where
  | infoMsg (text : String)
  | errorMsg (text : String)
deriving DecidableEq, Repr

/-- `on_ipctl` from `src/bin/lff.rs`. Lock acquisition always succeeds in
this single-threaded embedding (an `RwLock` is only poisoned by a panicked
writer), and so does the logger reload handle. Returns the reply line, the
updated shared checklist, and the log lines written. -/
def on_ipctl (command : String) (checklist : CompositeCheckList) :
    String × CompositeCheckList × List LogMsg :=
  let invMsg := "Invalid command: " ++ command
  let inv : String × CompositeCheckList × List LogMsg :=
    (invMsg, checklist, [.errorMsg invMsg])
  let splitted := splitSpace command
  match splitted with
  | [] => inv
  | verb :: _ =>
    if lowerStr verb = "log" then
      if splitted.length < 2 then inv
      else
        let levelStr := splitted.getD 1 ""
        match parseLevel levelStr with
        | some level =>
          let msg := "Log level is changed to " ++ level.display
          (msg, checklist, [.infoMsg msg])
        | none =>
          let msg := "Failed to convert " ++ levelStr ++ " to log level"
          (msg, checklist, [.errorMsg msg])
    else if lowerStr verb = "allow" then
      if splitted.length < 2 then inv
      else
        let fqdn := splitted.getD 1 ""
        let (r, al) := checklist.allowlist.add fqdn
        let msg := if r > 0 then "Add " ++ fqdn ++ " to AllowList"
                   else fqdn ++ " is already in AllowList"
        (msg, { checklist with allowlist := al }, [.infoMsg msg])
    else if lowerStr verb = "deny" then
      if splitted.length < 2 then inv
      else
        let fqdn := splitted.getD 1 ""
        let (r, al) := checklist.allowlist.delete fqdn
        let msg := if r > 0 then "Remove " ++ fqdn ++ " from AllowList"
                   else fqdn ++ " is not in AllowList"
        (msg, { checklist with allowlist := al }, [.infoMsg msg])
    else if lowerStr verb = "save" then
      match checklist.allowlist.save with
      | .ok _ =>
        ("AllowList is saved", checklist, [.infoMsg "AllowList is saved"])
      | .error e =>
        ("Failed to save allowlist", checklist,
         [.errorMsg ("Failed to save allowlist: " ++ e.display)])
    else if lowerStr verb = "list" then
      (String.intercalate "\n" checklist.allowlist.iter, checklist,
       [.infoMsg "Returned the list of FQDN(s)"])
    else inv

/-- The reply line of `on_ipctl`. -/
def ipctlReply (command : String) (checklist : CompositeCheckList) : String :=
  (on_ipctl command checklist).1

/-- The log lines of `on_ipctl`. -/
def ipctlLog (command : String) (checklist : CompositeCheckList) : List LogMsg :=
  (on_ipctl command checklist).2.2

/-- The outputs of `LFFResolveEvent::resolved`: the `tracing::info!` of the
status (the event forwarded unmodified) and the one-time suppression
warning. -/
inductive LffOut where
  | infoStatus (status : ResolvedStatus)
  | warnSuppressed
deriving DecidableEq, Repr

/-- `usize::MAX` (64-bit target). -/
def USIZE_MAX : Nat := 2 ^ 64 - 1

/-- `usize::saturating_add(1)`. -/
def satAdd1 (c : Nat) : Nat := min (c + 1) USIZE_MAX

/-- `LFFResolveEvent` from `src/bin/lff.rs`: the suppression threshold and
the per-fingerprint counter map (an association list of the `u64` hash
keys). -/
structure LFFResolveEvent where
  threshold : Nat
  count_map : List (Nat × Nat)
  output_allowed_log : Bool
  output_nochecked_log : Bool
deriving DecidableEq, Repr

/-- Association-list lookup for the counter map. -/
def lookupCount : List (Nat × Nat) → Nat → Option Nat
  | [], _ => none
  | (k, v) :: rest, c => if k = c then some v else lookupCount rest c

/-- Association-list update-or-insert for the counter map. -/
def setCount : List (Nat × Nat) → Nat → Nat → List (Nat × Nat)
  | [], c, v => [(c, v)]
  | (k, v0) :: rest, c, v => if k = c then (k, v) :: rest else (k, v0) :: setCount rest c v

/-- `LFFResolveEvent::resolved`, with the `DefaultHasher` fingerprint
`Self::code` supplied as the oracle `code` (the claims quantify per
fingerprint value). Returns the updated sink state and the emitted
outputs. -/
def LFFResolveEvent.resolved (ev : LFFResolveEvent) (code : ResolvedData → Nat)
    (status : ResolvedStatus) : LFFResolveEvent × List LffOut :=
  let ic : Bool × Nat :=
    match status with
    | .Allow v => (!ev.output_allowed_log, code v)
    | .AllowButError v _ => (!ev.output_allowed_log, code v)
    | .Deny v _ => (false, code v)
    | .NoCheck v => (!ev.output_nochecked_log, code v)
    | .NoCheckButError v _ => (!ev.output_nochecked_log, code v)
  if ic.1 then (ev, [])
  else
    let count := (lookupCount ev.count_map ic.2).getD 0
    let out1 := if count < ev.threshold then [LffOut.infoStatus status] else []
    let out2 := if count + 1 = ev.threshold then [LffOut.warnSuppressed] else []
    ({ ev with count_map := setCount ev.count_map ic.2 (satAdd1 count) }, out1 ++ out2)

/-- Feed a list of statuses through the sink, collecting the outputs per
event. -/
def LFFResolveEvent.runList (ev : LFFResolveEvent) (code : ResolvedData → Nat) :
    List ResolvedStatus → LFFResolveEvent × List (List LffOut)
  | [] => (ev, [])
  | st :: rest =>
    let r1 := ev.resolved code st
    let r2 := r1.1.runList code rest
    (r2.1, r1.2 :: r2.2)

/-! Specification-level byte images of the writers, used to relate
`write` and `read`; each mirrors exactly what the corresponding writer
stores (`% 256` is the `u8` store). -/

/-- Bytes of `write_u16`. -/
def u16Bytes (v : Nat) : List Nat := [(v >>> 8) % 256, (v &&& 0xFF) % 256]

/-- Bytes of `write_u32`. -/
def u32Bytes (v : Nat) : List Nat :=
  [((v >>> 24) &&& 0xFF) % 256, ((v >>> 16) &&& 0xFF) % 256,
   ((v >>> 8) &&& 0xFF) % 256, (v &&& 0xFF) % 256]

/-- Bytes of `write_labels` followed by the terminating zero. -/
def labelsBytes : List (List Nat) → List Nat
  | [] => [0]
  | l :: rest => (l.length % 256 :: l.map (· % 256)) ++ labelsBytes rest

/-- Bytes of `write_qname`. -/
def qnameBytes (q : List Nat) : List Nat := labelsBytes (splitDot q)

/-- The first flag byte `Header::write` packs. -/
def headerABits (h : Header) : Nat :=
  h.recursion_desired.toNat
    ||| (h.truncated_message.toNat <<< 1)
    ||| (h.authoritative_answer.toNat <<< 2)
    ||| (h.opcode <<< 3)
    ||| (h.response.toNat <<< 7)

/-- The second flag byte `Header::write` packs. -/
def headerBBits (h : Header) : Nat :=
  h.rescode.toU8
    ||| (h.checking_disabled.toNat <<< 4)
    ||| (h.authed_data.toNat <<< 5)
    ||| (h.z.toNat <<< 6)
    ||| (h.recursion_available.toNat <<< 7)

/-- Bytes of `Header::write`. -/
def headerBytes (h : Header) : List Nat :=
  u16Bytes h.id ++ [headerABits h % 256, headerBBits h % 256]
    ++ u16Bytes h.questions ++ u16Bytes h.answers
    ++ u16Bytes h.authoritative_entries ++ u16Bytes h.resource_entries

/-- Bytes of `Question::write`. -/
def questionBytes (q : Question) : List Nat :=
  qnameBytes q.name ++ u16Bytes q.qtype.toU16 ++ u16Bytes q.qclass

/-- Bytes of `Record::write` (for `Unknown` rdata this is the image when
the payload is empty; `write_range` leaves the cursor behind otherwise). -/
def recordBytes (r : Record) : List Nat :=
  match r.rdata with
  | .A addr =>
    qnameBytes r.name ++ u16Bytes 1 ++ u16Bytes r.qclass ++ u32Bytes r.ttl
      ++ u16Bytes 4 ++ [addr.o0 % 256, addr.o1 % 256, addr.o2 % 256, addr.o3 % 256]
  | .AAAA addr =>
    qnameBytes r.name ++ u16Bytes 28 ++ u16Bytes r.qclass ++ u32Bytes r.ttl
      ++ u16Bytes 16 ++ u16Bytes addr.s0 ++ u16Bytes addr.s1 ++ u16Bytes addr.s2
      ++ u16Bytes addr.s3 ++ u16Bytes addr.s4 ++ u16Bytes addr.s5
      ++ u16Bytes addr.s6 ++ u16Bytes addr.s7
  | .CNAME len name2 =>
    qnameBytes r.name ++ u16Bytes 5 ++ u16Bytes r.qclass ++ u32Bytes r.ttl
      ++ u16Bytes len ++ qnameBytes name2
  | .SRV len v =>
    qnameBytes r.name ++ u16Bytes 33 ++ u16Bytes r.qclass ++ u32Bytes r.ttl
      ++ u16Bytes len ++ u16Bytes v.priority ++ u16Bytes v.weight
      ++ u16Bytes v.port ++ qnameBytes v.target
  | .Unknown qt v =>
    qnameBytes r.name ++ u16Bytes qt.toU16 ++ u16Bytes r.qclass ++ u32Bytes r.ttl
      ++ u16Bytes v.length

/-- Bytes of a question group. -/
def questionsBytes (qs : List Question) : List Nat := (qs.map questionBytes).flatten

/-- Bytes of a record group. -/
def recordsBytes (rs : List Record) : List Nat := (rs.map recordBytes).flatten

/-- Bytes of `Message::write`. -/
def messageBytes (m : Message) : List Nat :=
  headerBytes m.normalizeCounts.header ++ questionsBytes m.questions
    ++ recordsBytes m.answers ++ recordsBytes m.authorities ++ recordsBytes m.resources

/-- Bytes of `write_labels` alone (no terminating zero):
`labelsBytes ls = labelsBytesCore ls ++ [0]`. -/
def labelsBytesCore : List (List Nat) → List Nat
  | [] => []
  | l :: rest => (l.length % 256 :: l.map (· % 256)) ++ labelsBytesCore rest

/-- The name the `read_qname` loop accumulates over the label list `ls`
starting from delimiter state `delim`: each label lowercased, joined
with `.`. -/
def joinLower (delim : List Nat) : List (List Nat) → List Nat
  | [] => []
  | l :: rest => delim ++ lowerBytes l ++ joinLower [46] rest

/-- The array `f` holds the byte list `bs` starting at index `p`. -/
def bytesAt (f : Nat → Nat) (p : Nat) (bs : List Nat) : Prop :=
  ∀ i, i < bs.length → f (p + i) = bs.getD i 0

/-- Shape of one successful writer run from `s` to `s1`: the cursor
advanced by the byte image `bs`, the array below the old cursor untouched,
the image in place at the old cursor, the new cursor in bounds. -/
structure WShape (s s1 : BytePacketBuffer) (bs : List Nat) : Prop where
  pos_eq : s1.pos = s.pos + bs.length
  lower : ∀ i, i < s.pos → s1.buf i = s.buf i
  image : bytesAt s1.buf s.pos bs
  le512 : s1.pos ≤ 512

/-- The writer `w` writes exactly the image `bs` whenever it succeeds. -/
def WriterOk (w : M Unit) (bs : List Nat) : Prop :=
  ∀ s s1, s.pos ≤ 512 → w s = .ok ((), s1) → WShape s s1 bs

/-! Validity of messages for the codec round-trip: the constraints the
source types and field widths impose (`u16`/`u32` ranges, the 4-bit opcode
and rcode fields, names whose labels fit the length-byte format and whose
bytes are lowercase-stable ASCII, rdata consistent with its record's
`qtype`/`rdlength`, and — forced by the `write_range` cursor slip — empty
`Unknown` payloads). -/

/-- A label the qname codec transports intact: nonempty, at most 63 bytes,
ASCII. -/
def validLabel (l : List Nat) : Bool :=
  decide (0 < l.length) && decide (l.length ≤ 63) && l.all (fun b => decide (b < 128))

/-- A name the qname codec transports intact; `lowerBytes q = q` because
`read_qname` lowercases. -/
def validName (q : List Nat) : Bool :=
  (splitDot q).all validLabel && decide (lowerBytes q = q)

/-- A query type whose 16-bit code maps back to it. -/
def validQType (t : QueryType) : Bool :=
  decide (t.toU16 < 65536) && decide (QueryType.fromU16 t.toU16 = t)

/-- Header fields within their wire widths; the rcode must fit the 4-bit
field and be one of the first twelve codes (`From<u8>` folds 12–15 to
`NoError`, and codes ≥ 16 overflow into the upper flag bits). -/
def validHeader (h : Header) : Bool :=
  decide (h.id < 65536) && decide (h.opcode < 16) && decide (h.rescode.toU8 < 12)

/-- A question the codec transports intact. -/
def validQuestion (q : Question) : Bool :=
  validName q.name && validQType q.qtype && decide (q.qclass < 65536)

/-- Rdata consistent with the record envelope. -/
def validRData (r : Record) : Bool :=
  match r.rdata with
  | .A addr =>
    decide (r.qtype = QueryType.A) && decide (r.rdlength = 4)
      && decide (addr.o0 < 256) && decide (addr.o1 < 256)
      && decide (addr.o2 < 256) && decide (addr.o3 < 256)
  | .AAAA addr =>
    decide (r.qtype = QueryType.AAAA) && decide (r.rdlength = 16)
      && decide (addr.s0 < 65536) && decide (addr.s1 < 65536)
      && decide (addr.s2 < 65536) && decide (addr.s3 < 65536)
      && decide (addr.s4 < 65536) && decide (addr.s5 < 65536)
      && decide (addr.s6 < 65536) && decide (addr.s7 < 65536)
  | .CNAME len name2 =>
    decide (r.qtype = QueryType.CNAME) && decide (r.rdlength = len)
      && decide (len < 65536) && validName name2
  | .SRV len v =>
    decide (r.qtype = QueryType.SRV) && decide (r.rdlength = len)
      && decide (len < 65536) && decide (v.priority < 65536)
      && decide (v.weight < 65536) && decide (v.port < 65536) && validName v.target
  | .Unknown qt v =>
    decide (r.qtype = qt) && validQType qt && decide (qt.discr = 0)
      && v.isEmpty && decide (r.rdlength = 0)

/-- A record the codec transports intact. -/
def validRecord (r : Record) : Bool :=
  validName r.name && decide (r.qclass < 65536)
    && decide (r.ttl < 4294967296) && validRData r

/-- A message the codec transports intact (modulo counter normalization). -/
def validMessage (m : Message) : Bool :=
  validHeader m.header
    && decide (m.questions.length < 65536) && decide (m.answers.length < 65536)
    && decide (m.authorities.length < 65536) && decide (m.resources.length < 65536)
    && m.questions.all validQuestion && m.answers.all validRecord
    && m.authorities.all validRecord && m.resources.all validRecord

/-! Concrete artifacts referenced by the claim theorems. -/

/-- A buffer whose first two bytes are the compression pointer `C0 00`,
i.e. a pointer at offset 0 to offset 0: a jump cycle. -/
def cycleBuf : BytePacketBuffer := ⟨fun i => if i = 0 then 0xC0 else 0, 0⟩

/-- A buffer whose first two bytes are the compression pointer `C2 00`:
a pointer whose 14-bit offset is 512, one past the buffer. -/
def ptr512Buf : BytePacketBuffer := ⟨fun i => if i = 0 then 0xC2 else 0, 0⟩

/-- The buffer obtained by `write_qname(q)` on a fresh buffer, repositioned
to 0 for reading (fresh buffer when the write fails). -/
def qnameWriteBuf (q : List Nat) : BytePacketBuffer :=
  match write_qname q BytePacketBuffer.new with
  | .ok (_, s1) => ⟨s1.buf, 0⟩
  | _ => BytePacketBuffer.new

/-- A valid message touching every record variant, used as the round-trip
witness input. -/
def witnessMsg : Message :=
  { header := { Header.new with id := 257, recursion_desired := true,
                                rescode := .NXDomain, opcode := 2, z := true }
    questions := [⟨[97, 98, 46, 99, 100], .A, 1⟩]
    answers := [⟨[97], .A, 1, 3600, 4, .A ⟨93, 184, 216, 34⟩⟩,
                ⟨[97], .CNAME, 1, 60, 7, .CNAME 7 [101, 102]⟩]
    authorities := [⟨[97], .SRV, 1, 1, 20, .SRV 20 ⟨1, 2, 3, [103]⟩⟩]
    resources := [⟨[97], .AAAA, 1, 2, 16, .AAAA ⟨1, 2, 3, 4, 5, 65535, 7, 8⟩⟩,
                  ⟨[122], .UNKNOWN 16, 1, 9, 0, .Unknown (.UNKNOWN 16) []⟩] }

/-- A message that is valid except that its first answer is an `Unknown`
record with a nonempty payload, followed by a second record: the
counterexample input for the round-trip claim. -/
def unknownPayloadMsg : Message :=
  { header := Header.new
    questions := []
    answers := [⟨[97], .UNKNOWN 16, 1, 0, 1, .Unknown (.UNKNOWN 16) [7]⟩,
                ⟨[98], .A, 1, 0, 4, .A ⟨1, 2, 3, 4⟩⟩]
    authorities := []
    resources := [] }

/-- A decoded request carrying a single A question for `a`, used as the
concrete request in the pipeline theorems. -/
def reqA : Message :=
  { header := { Header.new with id := 7, recursion_desired := true, questions := 1 }
    questions := [⟨[97], .A, 1⟩]
    answers := []
    authorities := []
    resources := [] }

/-- An in-memory composite checklist (no file paths). -/
def inMemoryCkl : CompositeCheckList := ⟨InMemoryAllowList.new, InMemoryAllowList.new⟩

/-- A deny event for the fingerprint theorems (never ignored by the
rate-limited sink). -/
def denyStatus : ResolvedStatus := .Deny (ResolvedData.new .A [97]) .NXDomain

/-- The rate-limited sink as `exec` builds it: threshold 3, a fresh map. -/
def lffSink3 : LFFResolveEvent := ⟨3, [], false, false⟩

/-- The buffer array holding the byte list `bs` from index 0 (zeros
beyond). -/
def bufOf (bs : List Nat) : Nat → Nat := fun i => bs.getD i 0

/-- The number of payload bytes the `Unknown` arm of `Record::write` copies
above the cursor it does not advance (0 for every other rdata). -/
def rdataPayloadLen (r : Record) : Nat :=
  match r.rdata with
  | .Unknown _ v => v.length
  | _ => 0

/-- How far beyond its encoded image a record-group write touches the
buffer: each record's stranded payload, less the bytes the following
records write over it. -/
def recordsWriteSlack : List Record → Nat
  | [] => 0
  | r :: rest =>
    max (rdataPayloadLen r - (recordsBytes rest).length) (recordsWriteSlack rest)

/-- How far beyond its encoded image `Message::write` touches the buffer. -/
def messageWriteSlack (m : Message) : Nat :=
  max (recordsWriteSlack m.answers -
        ((recordsBytes m.authorities).length + (recordsBytes m.resources).length))
    (max (recordsWriteSlack m.authorities - (recordsBytes m.resources).length)
      (recordsWriteSlack m.resources))

/-- A name `write_qname` accepts: every label at most 63 bytes. -/
def writableName (q : List Nat) : Bool :=
  (splitDot q).all (fun l => decide (l.length ≤ 63))

/-- A question `Question::write` accepts. -/
def writableQuestion (q : Question) : Bool := writableName q.name

/-- A record `Record::write` accepts: its owner name and any rdata-carried
name within the label limit. -/
def writableRecord (r : Record) : Bool :=
  writableName r.name &&
  (match r.rdata with
   | .CNAME _ n2 => writableName n2
   | .SRV _ v => writableName v.target
   | _ => true)

/-- A message `Message::write` accepts (label limits only; sizes are a
separate hypothesis). -/
def writableMessage (m : Message) : Bool :=
  m.questions.all writableQuestion && m.answers.all writableRecord
    && m.authorities.all writableRecord && m.resources.all writableRecord

/-- A successful run of the writer `w` from any position `p` with the room
`p + bs.length + k + 1 ≤ 512`: the cursor advances by the image length and
the array is untouched below `p` and at or above `p + bs.length + k` (the
`k` bytes of grace absorb the cursor-slipped `write_range` copies). -/
def WRuns (w : M Unit) (bs : List Nat) (k : Nat) : Prop :=
  ∀ (f : Nat → Nat) (p : Nat), p + bs.length + k + 1 ≤ 512 →
    ∃ g, w ⟨f, p⟩ = .ok ((), ⟨g, p + bs.length⟩) ∧
      ∀ i, (i < p ∨ p + bs.length + k ≤ i) → g i = f i

/-- The bytes `Message::write(unknownPayloadMsg)` lays down (checked
against `messageBytes` in the C3 counterexample proof). -/
def upBytes : List Nat :=
  [0, 0, 0, 0, 0, 0, 0, 2, 0, 0, 0, 0,
   1, 97, 0, 0, 16, 0, 1, 0, 0, 0, 0, 0, 1,
   1, 98, 0, 0, 1, 0, 1, 0, 0, 0, 0, 0, 4, 1, 2, 3, 4]

/-- The header `Message::read` recovers from `upBytes`. -/
def cxHdr : Header :=
  ⟨0, false, false, false, 0, false, .NoError, false, false, false, false, 0, 2, 0, 0⟩

/-- The first answer `Message::read` recovers from `upBytes`: the `Unknown`
payload byte comes out as `1` (the length byte of the next record's name),
not the written `7`. -/
def cxRec1 : Record := ⟨[97], .UNKNOWN 16, 1, 0, 1, .Unknown (.UNKNOWN 16) [1]⟩

/-- The second answer `Message::read` recovers from `upBytes`: one byte
into the real second record, its name length byte reads as 98 and drags in
73 bytes of garbage and zeros. -/
def cxRec2 : Record :=
  ⟨[0, 0, 1, 0, 1, 0, 0, 0, 0, 0, 4, 1, 2, 3, 4] ++ List.replicate 83 0,
   .UNKNOWN 0, 0, 0, 0, .Unknown (.UNKNOWN 0) []⟩

/-- The message `Message::read` recovers from `upBytes`. -/
def cxDecoded : Message := ⟨cxHdr, [], [cxRec1, cxRec2], [], []⟩

-- ======================================================================
-- Theorems
-- ======================================================================

/-! ### Byte-layout helpers -/

theorem bytesAt_nil (f : Nat → Nat) (p : Nat) : bytesAt f p [] := by
  intro i hi
  simp at hi

theorem bytesAt_cons {f : Nat → Nat} {p b : Nat} {bs : List Nat} :
    bytesAt f p (b :: bs) ↔ f p = b ∧ bytesAt f (p + 1) bs := by
  constructor
  · intro h
    constructor
    · have h0 := h 0 (by simp)
      simpa using h0
    · intro i hi
      have h1 := h (i + 1) (by simp; omega)
      rw [show p + (i + 1) = p + 1 + i by omega] at h1
      simpa using h1
  · rintro ⟨h0, h1⟩ i hi
    cases i with
    | zero => simpa using h0
    | succ j =>
      have h2 := h1 j (by simp at hi; omega)
      rw [show p + 1 + j = p + (j + 1) by omega] at h2
      simpa using h2

theorem bytesAt_append {f : Nat → Nat} {p : Nat} {bs1 bs2 : List Nat} :
    bytesAt f p (bs1 ++ bs2) ↔ bytesAt f p bs1 ∧ bytesAt f (p + bs1.length) bs2 := by
  induction bs1 generalizing p with
  | nil =>
    simp only [List.nil_append, List.length_nil, Nat.add_zero]
    exact ⟨fun h => ⟨bytesAt_nil f p, h⟩, fun h => h.2⟩
  | cons b rest ih =>
    rw [List.cons_append, bytesAt_cons, bytesAt_cons, ih, List.length_cons,
        show p + 1 + rest.length = p + (rest.length + 1) by omega]
    tauto

theorem map_range_of_bytesAt {f : Nat → Nat} {p : Nat} {bs : List Nat}
    (h : bytesAt f p bs) : (List.range bs.length).map (fun i => f (p + i)) = bs := by
  apply List.ext_getElem
  · simp
  · intro i h1 h2
    have h3 := h i h2
    simp only [List.getElem_map, List.getElem_range]
    rw [h3, List.getD_eq_getElem bs 0 h2]

/-! ### Monad and writer-shape helpers -/

theorem bind_ok_elim {α β : Type} {x : M α} {f : α → M β} {s s2 : BytePacketBuffer} {b : β}
    (h : (x >>= f) s = .ok (b, s2)) :
    ∃ a s1, x s = .ok (a, s1) ∧ f a s1 = .ok (b, s2) := by
  rw [M.run_bind] at h
  cases hx : x s with
  | ok v => rw [hx] at h; exact ⟨v.1, v.2, rfl, h⟩
  | err e => rw [hx] at h; cases h
  | crash => rw [hx] at h; cases h

theorem writerOk_congr {w : M Unit} {bs1 bs2 : List Nat} (h : WriterOk w bs1)
    (he : bs1 = bs2) : WriterOk w bs2 := he ▸ h

theorem writerOk_pure : WriterOk (pure ()) [] := by
  intro s s1 hle h
  rw [M.run_pure] at h
  cases h
  exact ⟨by simp, fun i _ => rfl, bytesAt_nil _ _, by simpa using hle⟩

theorem writerOk_bind {w1 w2 : M Unit} {bs1 bs2 : List Nat}
    (h1 : WriterOk w1 bs1) (h2 : WriterOk w2 bs2) :
    WriterOk (do w1; w2) (bs1 ++ bs2) := by
  intro s s2 hle h
  obtain ⟨a, s1, ha, hb⟩ := bind_ok_elim h
  have sh1 := h1 s s1 hle ha
  have sh2 := h2 s1 s2 sh1.le512 hb
  refine ⟨?_, ?_, ?_, sh2.le512⟩
  · rw [sh2.pos_eq, sh1.pos_eq, List.length_append]
    omega
  · intro i hi
    have hi1 : i < s1.pos := by rw [sh1.pos_eq]; omega
    rw [sh2.lower i hi1, sh1.lower i hi]
  · rw [bytesAt_append]
    constructor
    · intro i hi
      have hlt : s.pos + i < s1.pos := by rw [sh1.pos_eq]; omega
      rw [sh2.lower _ hlt]
      exact sh1.image i hi
    · rw [← sh1.pos_eq]
      exact sh2.image

theorem writerOk_write (v : Nat) : WriterOk (write v) [v % 256] := by
  intro s s1 hle h
  unfold BytePacketBuffer.write at h
  split at h
  case isTrue hlt =>
    cases h
    refine ⟨by simp, ?_, ?_, by simp [BUF_SIZE] at hlt ⊢; omega⟩
    · intro i hi
      simp [show i ≠ s.pos by omega]
    · intro i hi
      simp at hi
      subst hi
      simp
  case isFalse => cases h

theorem writerOk_write_u8 (v : Nat) : WriterOk (write_u8 v) [v % 256] :=
  writerOk_write v

theorem writerOk_write_u16 (v : Nat) : WriterOk (write_u16 v) (u16Bytes v) := by
  have := writerOk_bind (writerOk_write (v >>> 8)) (writerOk_write (v &&& 0xFF))
  exact writerOk_congr this rfl

theorem writerOk_write_u32 (v : Nat) : WriterOk (write_u32 v) (u32Bytes v) := by
  have h := writerOk_bind (writerOk_write ((v >>> 24) &&& 0xFF))
    (writerOk_bind (writerOk_write ((v >>> 16) &&& 0xFF))
      (writerOk_bind (writerOk_write ((v >>> 8) &&& 0xFF))
        (writerOk_write (v &&& 0xFF))))
  exact writerOk_congr h rfl

/-! ### Bit recomposition -/

theorem and255_eq_mod {x : Nat} : x &&& 255 = x % 256 :=
  Nat.and_pow_two_sub_one_eq_mod x 8

theorem and15_eq_mod {x : Nat} : x &&& 15 = x % 16 :=
  Nat.and_pow_two_sub_one_eq_mod x 4

theorem and65535_eq_mod {x : Nat} : x &&& 65535 = x % 65536 :=
  Nat.and_pow_two_sub_one_eq_mod x 16

theorem shiftRight8_eq {x : Nat} : x >>> 8 = x / 256 :=
  Nat.shiftRight_eq_div_pow x 8

theorem shiftRight16_eq {x : Nat} : x >>> 16 = x / 65536 :=
  Nat.shiftRight_eq_div_pow x 16

theorem shiftRight24_eq {x : Nat} : x >>> 24 = x / 16777216 :=
  Nat.shiftRight_eq_div_pow x 24

theorem orAdd_8 {a b : Nat} (hb : b < 256) : (a <<< 8) ||| b = a * 256 + b := by
  have hb2 : b < 2 ^ 8 := lt_of_lt_of_eq hb (by norm_num)
  rw [Nat.shiftLeft_eq, show a * 2 ^ 8 = 2 ^ 8 * a by ring]
  calc 2 ^ 8 * a ||| b = 2 ^ 8 * a + b := (Nat.mul_add_lt_is_or hb2 a).symm
    _ = a * 256 + b := by norm_num; ring

theorem or_mul_add {k q y : Nat} (hy : y < 2 ^ k) : (2 ^ k * q) ||| y = 2 ^ k * q + y :=
  (Nat.mul_add_lt_is_or hy q).symm

/-- Four bytes assembled by `read_u32` equal the base-256 value. -/
theorem four_bytes_recompose {b0 b1 b2 b3 : Nat} (h1 : b1 < 256)
    (h2 : b2 < 256) (h3 : b3 < 256) :
    (b0 <<< 24) ||| (b1 <<< 16) ||| (b2 <<< 8) ||| b3 =
      ((b0 * 256 + b1) * 256 + b2) * 256 + b3 := by
  have p16 : (2 : Nat) ^ 16 = 65536 := by norm_num
  have p24 : (2 : Nat) ^ 24 = 16777216 := by norm_num
  have p8 : (2 : Nat) ^ 8 = 256 := by norm_num
  rw [Nat.shiftLeft_eq b0 24, Nat.shiftLeft_eq b1 16, Nat.shiftLeft_eq b2 8]
  rw [show b0 * 2 ^ 24 = 2 ^ 24 * b0 by ring]
  rw [or_mul_add (show b1 * 2 ^ 16 < 2 ^ 24 by rw [p16, p24]; omega)]
  rw [show 2 ^ 24 * b0 + b1 * 2 ^ 16 = 2 ^ 16 * (b0 * 256 + b1) by rw [p16, p24]; ring]
  rw [or_mul_add (show b2 * 2 ^ 8 < 2 ^ 16 by rw [p8, p16]; omega)]
  rw [show 2 ^ 16 * (b0 * 256 + b1) + b2 * 2 ^ 8 = 2 ^ 8 * ((b0 * 256 + b1) * 256 + b2) by
        rw [p8, p16]; ring]
  rw [or_mul_add (show b3 < 2 ^ 8 by rw [p8]; omega)]
  rw [p8]
  ring

/-- Recompose the two bytes `write_u16` stores. -/
theorem u16_recompose {v : Nat} (hv : v < 65536) :
    ((((v >>> 8) % 256 : Nat)) <<< 8) ||| ((v &&& 0xFF) % 256) = v := by
  rw [orAdd_8 (by omega)]
  rw [and255_eq_mod, shiftRight8_eq]
  omega

/-- Recompose the four bytes `write_u32` stores. -/
theorem u32_recompose {v : Nat} (hv : v < 4294967296) :
    (((((v >>> 24) &&& 0xFF) % 256 : Nat)) <<< 24)
      ||| ((((v >>> 16) &&& 0xFF) % 256) <<< 16)
      ||| ((((v >>> 8) &&& 0xFF) % 256) <<< 8)
      ||| ((v &&& 0xFF) % 256) = v := by
  rw [four_bytes_recompose (by omega) (by omega) (by omega)]
  rw [and255_eq_mod, and255_eq_mod, and255_eq_mod, and255_eq_mod,
      shiftRight8_eq, shiftRight16_eq, shiftRight24_eq]
  omega

/-! ### Primitive operation equations -/

theorem read_at {f : Nat → Nat} {p : Nat} (hp : p < 512) :
    read ⟨f, p⟩ = .ok (f p, ⟨f, p + 1⟩) := by
  simp [BytePacketBuffer.read, BUF_SIZE, hp]

theorem write_at {f : Nat → Nat} {p : Nat} (hp : p < 512) (v : Nat) :
    write v ⟨f, p⟩ = .ok ((), ⟨fun j => if j = p then v % 256 else f j, p + 1⟩) := by
  simp [BytePacketBuffer.write, BUF_SIZE, hp]

theorem get_at {f : Nat → Nat} {c p : Nat} (hc : c < 512) (hp : p < 512) :
    BytePacketBuffer.get ⟨f, c⟩ p = .ok (f p) := by
  simp [BytePacketBuffer.get, BUF_SIZE, hc, hp]

theorem get_range_at {f : Nat → Nat} {c p len : Nat} (h : p + len < 512) :
    BytePacketBuffer.get_range ⟨f, c⟩ p len =
      .ok ((List.range len).map (fun i => f (p + i))) := by
  simp [BytePacketBuffer.get_range, BUF_SIZE, h]

theorem read_u16_at {f : Nat → Nat} {p b0 b1 : Nat} (hp : p + 2 ≤ 512)
    (h0 : f p = b0) (h1 : f (p + 1) = b1) :
    read_u16 ⟨f, p⟩ = .ok ((b0 <<< 8) ||| b1, ⟨f, p + 2⟩) := by
  have hp0 : p < 512 := by omega
  have hp1 : p + 1 < 512 := by omega
  simp [BytePacketBuffer.read_u16, BytePacketBuffer.read, BUF_SIZE, hp0, hp1, h0, h1]

theorem read_u32_at {f : Nat → Nat} {p b0 b1 b2 b3 : Nat} (hp : p + 4 ≤ 512)
    (h0 : f p = b0) (h1 : f (p + 1) = b1) (h2 : f (p + 2) = b2) (h3 : f (p + 3) = b3) :
    read_u32 ⟨f, p⟩ =
      .ok ((b0 <<< 24) ||| (b1 <<< 16) ||| (b2 <<< 8) ||| b3, ⟨f, p + 4⟩) := by
  have hp0 : p < 512 := by omega
  have hp1 : p + 1 < 512 := by omega
  have hp2 : p + 2 < 512 := by omega
  have hp3 : p + 3 < 512 := by omega
  simp [BytePacketBuffer.read_u32, BytePacketBuffer.read, BUF_SIZE,
        hp0, hp1, hp2, hp3, h0, h1, h2, h3]

/-! ### C4: the byte-range guards -/

/-- C4: the source gates `read_range`/`get_range` on `pos + len < 512`
(strict), so the exactly-fitting read whose range ends at offset 512 is
rejected with `EndOfBuffer`, where the claim (and §9.2 of the spec, which
calls the strict check a bug) requires it to succeed: the code evaluated
at the failing input. -/
theorem c4_exact_fit_rejected :
    read_range 512 BytePacketBuffer.new = .err .endOfBuffer ∧
    BytePacketBuffer.new.get_range 0 512 = .err .endOfBuffer ∧
    (∀ (s : BytePacketBuffer) (len : Nat), s.pos + len < 512 →
      read_range len s = .ok ((List.range len).map (fun i => s.buf (s.pos + i)),
                              ⟨s.buf, s.pos + len⟩)) := by
  refine ⟨rfl, rfl, ?_⟩
  intro s len h
  simp [BytePacketBuffer.read_range, BUF_SIZE, h]

/-- C4 witness: a strictly-inside read succeeds. -/
theorem c4_exact_fit_rejected_witness :
    read_range 4 BytePacketBuffer.new =
      .ok ((List.range 4).map (fun i => BytePacketBuffer.new.buf (BytePacketBuffer.new.pos + i)),
           ⟨BytePacketBuffer.new.buf, BytePacketBuffer.new.pos + 4⟩) :=
  c4_exact_fit_rejected.2.2 BytePacketBuffer.new 4 (by decide)

/-! ### C10: `get` guards the cursor, not its argument -/

/-- C10: `get(p)` checks `self.pos < 512` and then indexes the array with
`p` unchecked: under any cursor below 512 it never returns `EndOfBuffer`
for any `p`, and `read_qname` on a compressed name whose pointer offset is
512 reaches the out-of-bounds array index (a panic) instead of an
`EndOfBuffer` error. -/
theorem c10_get_guards_cursor :
    (∀ (s : BytePacketBuffer) (p : Nat), s.pos < 512 → s.get p ≠ .err .endOfBuffer) ∧
    read_qname_name ptr512Buf = .crash := by
  constructor
  · intro s p hpos
    unfold BytePacketBuffer.get
    rw [if_pos (show s.pos < BUF_SIZE from hpos)]
    split <;> simp
  · rfl

/-- C10 witness: a concrete out-of-range argument under an in-range cursor
is not reported as `EndOfBuffer`. -/
theorem c10_get_guards_cursor_witness :
    BytePacketBuffer.new.get 600 ≠ .err .endOfBuffer :=
  c10_get_guards_cursor.1 BytePacketBuffer.new 600 (by decide)

/-! ### C6: the pointer-jump cap -/

/-- Any successful run of the `read_qname` loop returns a jump count that
passed the `jumps_performed > max_jumps` check of its final frame. -/
theorem read_qname_aux_jumps_le :
    ∀ (fuel : Nat) (s : BytePacketBuffer) (p : Nat) (jumped : Bool)
      (jumps : Nat) (ret delim name : List Nat) (j : Nat) (s1 : BytePacketBuffer),
      read_qname_aux fuel s p jumped jumps ret delim = .ok ((name, j), s1) → j ≤ 5 := by
  intro fuel
  induction fuel with
  | zero => intro s p jumped jumps ret delim name j s1 h; cases h
  | succ fuel ih =>
    intro s p jumped jumps ret delim name j s1 h
    rw [read_qname_aux] at h
    split at h
    · cases h
    · rename_i hjle
      split at h
      · cases h
      · cases h
      · split at h
        · split at h
          · cases h
          · cases h
          · exact ih _ _ _ _ _ _ _ _ _ h
        · split at h
          · cases h
            simp [maxJumps] at hjle
            omega
          · split at h
            · cases h
            · cases h
            · exact ih _ _ _ _ _ _ _ _ _ h

/-- C6: `read_qname` caps compression-pointer jumps at 5: the crafted
compressed name `C0 00` (a pointer at offset 0 to offset 0, a jump cycle)
fails with `JumpLimit(5)`, and no successful `read_qname` performs more
than 5 jumps. -/
theorem c6_jump_cap :
    (∀ (s : BytePacketBuffer) (j : Nat), read_qname_jumps s = .ok j → j ≤ 5) ∧
    read_qname_name cycleBuf = .err (.jumpLimit 5) := by
  constructor
  · intro s j h
    unfold BytePacketBuffer.read_qname_jumps at h
    cases hfull : read_qname_full s with
    | ok v =>
      rw [hfull] at h
      obtain ⟨⟨name, j2⟩, s1⟩ := v
      cases h
      exact read_qname_aux_jumps_le _ _ _ _ _ _ _ _ _ _ hfull
    | err e => rw [hfull] at h; cases h
    | crash => rw [hfull] at h; cases h
  · rfl

/-- C6 witness: a plain one-label name read performs 0 jumps. -/
theorem c6_jump_cap_witness :
    read_qname_jumps ⟨fun i => if i = 0 then 1 else if i = 1 then 97 else 0, 0⟩ = .ok 0 ∧
    (0 : Nat) ≤ 5 := by
  constructor
  · rfl
  · exact c6_jump_cap.1 ⟨fun i => if i = 0 then 1 else if i = 1 then 97 else 0, 0⟩ 0 rfl

/-! ### The qname codec -/

theorem labelsBytes_eq (ls : List (List Nat)) :
    labelsBytes ls = labelsBytesCore ls ++ [0] := by
  induction ls with
  | nil => rfl
  | cons l rest ih => simp [labelsBytes, labelsBytesCore, ih]

theorem labelsBytes_length_pos (ls : List (List Nat)) : 0 < (labelsBytes ls).length := by
  rw [labelsBytes_eq]
  simp

theorem and_c0_of_le63 {n : Nat} (h : n ≤ 63) : n &&& 0xC0 = 0 := by
  have h2 : ∀ m, m < 64 → m &&& 192 = 0 := by decide
  exact h2 n (by omega)

theorem splitDot_ne_nil (q : List Nat) : splitDot q ≠ [] := by
  cases q with
  | nil => simp [splitDot]
  | cons b rest =>
    rw [splitDot]
    split
    · simp
    · split <;> simp

theorem joinDot_two (l : List Nat) (l2 : List Nat) (ls : List (List Nat)) :
    joinDot (l :: l2 :: ls) = l ++ 46 :: joinDot (l2 :: ls) := rfl

theorem joinDot_splitDot (q : List Nat) : joinDot (splitDot q) = q := by
  induction q with
  | nil => rfl
  | cons b rest ih =>
    rw [splitDot]
    split
    · rename_i hb
      subst hb
      cases hs : splitDot rest with
      | nil => exact absurd hs (splitDot_ne_nil rest)
      | cons l ls =>
        rw [hs] at ih
        rw [show joinDot ([] :: l :: ls) = [] ++ 46 :: joinDot (l :: ls) from rfl,
            List.nil_append, ih]
    · rename_i hb
      cases hs : splitDot rest with
      | nil => exact absurd hs (splitDot_ne_nil rest)
      | cons l ls =>
        rw [hs] at ih
        show joinDot ((b :: l) :: ls) = b :: rest
        cases ls with
        | nil =>
          rw [show joinDot [b :: l] = b :: l from rfl]
          rw [show joinDot [l] = l from rfl] at ih
          rw [ih]
        | cons l2 ls2 =>
          rw [show joinDot ((b :: l) :: l2 :: ls2) =
                (b :: l) ++ 46 :: joinDot (l2 :: ls2) from rfl]
          rw [joinDot_two] at ih
          rw [List.cons_append, ih]

theorem lowerBytes_append (a b : List Nat) :
    lowerBytes (a ++ b) = lowerBytes a ++ lowerBytes b := by
  simp [lowerBytes]

theorem lowerBytes_joinDot : ∀ ls : List (List Nat),
    lowerBytes (joinDot ls) = joinDot (ls.map lowerBytes)
  | [] => rfl
  | [_] => rfl
  | l :: l2 :: rest => by
    rw [List.map_cons, List.map_cons,
        show joinDot (lowerBytes l :: lowerBytes l2 :: rest.map lowerBytes) =
          lowerBytes l ++ 46 :: joinDot (lowerBytes l2 :: rest.map lowerBytes) from rfl,
        ← List.map_cons lowerBytes l2 rest,
        joinDot_two, lowerBytes_append, ← lowerBytes_joinDot (l2 :: rest)]
    have h46 : lowerBytes (46 :: joinDot (l2 :: rest)) =
        46 :: lowerBytes (joinDot (l2 :: rest)) := by
      simp [lowerBytes, lowerByte]
    rw [h46]

theorem joinLower_eq : ∀ (ls : List (List Nat)), ls ≠ [] → ∀ (d : List Nat),
    joinLower d ls = d ++ joinDot (ls.map lowerBytes)
  | [], h => absurd rfl h
  | [l], _ => by
    intro d
    rw [joinLower, joinLower]
    simp [joinDot]
  | l :: l2 :: rest, _ => by
    intro d
    rw [joinLower, joinLower_eq (l2 :: rest) (by simp) [46]]
    simp only [List.map_cons]
    rw [joinDot_two]
    simp

theorem joinLower_splitDot (q : List Nat) :
    joinLower [] (splitDot q) = lowerBytes q := by
  rw [joinLower_eq (splitDot q) (splitDot_ne_nil q) [], List.nil_append,
      ← lowerBytes_joinDot, joinDot_splitDot]

/-- Writer shape of the inner byte loop of `write_qname`. -/
theorem writerOk_write_label_bytes (l : List Nat) :
    WriterOk (write_label_bytes l) (l.map (· % 256)) := by
  induction l with
  | nil => exact writerOk_congr writerOk_pure rfl
  | cons b rest ih =>
    have h := writerOk_bind (writerOk_write_u8 b) ih
    exact writerOk_congr h rfl

/-- A throwing head makes the whole sequence fail, so any image fits. -/
theorem writerOk_throw_seq (e : DnsError) (w : M Unit) (bs : List Nat) :
    WriterOk (do M.throw e; w) bs := by
  intro s s1 _ h
  rw [M.run_bind] at h
  cases h

/-- Writer shape of the label loop of `write_qname`. -/
theorem writerOk_write_labels (ls : List (List Nat)) :
    WriterOk (write_labels ls) (labelsBytesCore ls) := by
  induction ls with
  | nil => exact writerOk_congr writerOk_pure rfl
  | cons l rest ih =>
    rw [write_labels]
    by_cases hlen : l.length > 0x3f
    · rw [if_pos hlen]
      exact writerOk_throw_seq _ _ _
    · rw [if_neg hlen]
      have h := writerOk_bind (writerOk_write_u8 l.length)
        (writerOk_bind (writerOk_write_label_bytes l) ih)
      apply writerOk_congr h
      simp [labelsBytesCore]

/-- Writer shape of `write_qname`. -/
theorem writerOk_write_qname (q : List Nat) :
    WriterOk (write_qname q) (qnameBytes q) := by
  have h := writerOk_bind (writerOk_write_labels (splitDot q)) (writerOk_write_u8 0)
  apply writerOk_congr h
  rw [qnameBytes, labelsBytes_eq]

/-- Two sequenced writers run by running each. -/
theorem run_seq {w1 w2 : M Unit} {s s1 s2 : BytePacketBuffer}
    (h1 : w1 s = .ok ((), s1)) (h2 : w2 s1 = .ok ((), s2)) :
    (do w1; w2) s = .ok ((), s2) := by
  rw [M.run_bind, h1]
  exact h2

/-- `write_label_bytes` succeeds whenever the bytes fit. -/
theorem write_label_bytes_run (l : List Nat) :
    ∀ (f : Nat → Nat) (p : Nat), p + l.length ≤ 512 →
      ∃ g, write_label_bytes l ⟨f, p⟩ = .ok ((), ⟨g, p + l.length⟩) := by
  induction l with
  | nil => intro f p _; exact ⟨f, by simp [write_label_bytes]⟩
  | cons b rest ih =>
    intro f p hfit
    simp only [List.length_cons] at hfit
    obtain ⟨g, hg⟩ := ih (fun j => if j = p then b % 256 else f j) (p + 1) (by omega)
    refine ⟨g, ?_⟩
    rw [show p + (b :: rest).length = p + 1 + rest.length by simp; omega]
    rw [write_label_bytes]
    exact run_seq (write_at (by omega) b) hg

/-- `write_labels` succeeds whenever every label fits the length byte and
the bytes fit the buffer. -/
theorem write_labels_run (ls : List (List Nat)) :
    ∀ (f : Nat → Nat) (p : Nat), (∀ l ∈ ls, l.length ≤ 63) →
      p + (labelsBytesCore ls).length ≤ 512 →
      ∃ g, write_labels ls ⟨f, p⟩ = .ok ((), ⟨g, p + (labelsBytesCore ls).length⟩) := by
  induction ls with
  | nil => intro f p _ _; exact ⟨f, by simp [write_labels, labelsBytesCore]⟩
  | cons l rest ih =>
    intro f p hlab hfit
    have hlen : l.length ≤ 63 := hlab l (by simp)
    have hcorelen : (labelsBytesCore (l :: rest)).length =
        1 + l.length + (labelsBytesCore rest).length := by
      simp [labelsBytesCore]
      omega
    rw [hcorelen] at hfit
    obtain ⟨g1, hg1⟩ := write_label_bytes_run l
      (fun j => if j = p then l.length % 256 else f j) (p + 1) (by omega)
    obtain ⟨g2, hg2⟩ := ih g1 (p + 1 + l.length) (fun x hx => hlab x (by simp [hx])) (by omega)
    refine ⟨g2, ?_⟩
    rw [hcorelen, show p + (1 + l.length + (labelsBytesCore rest).length) =
          p + 1 + l.length + (labelsBytesCore rest).length by omega]
    rw [write_labels, if_neg (by omega)]
    exact run_seq (write_at (by omega) l.length) (run_seq hg1 hg2)

/-- `write_qname` succeeds whenever the labels and the buffer room allow. -/
theorem write_qname_run (q : List Nat) (f : Nat → Nat) (p : Nat)
    (hlab : ∀ l ∈ splitDot q, l.length ≤ 63)
    (hfit : p + (qnameBytes q).length ≤ 512) :
    ∃ g, write_qname q ⟨f, p⟩ = .ok ((), ⟨g, p + (qnameBytes q).length⟩) := by
  have hlen : (qnameBytes q).length = (labelsBytesCore (splitDot q)).length + 1 := by
    rw [qnameBytes, labelsBytes_eq]
    simp
  obtain ⟨g1, hg1⟩ := write_labels_run (splitDot q) f p hlab (by omega)
  refine ⟨fun j => if j = p + (labelsBytesCore (splitDot q)).length then 0 % 256 else g1 j, ?_⟩
  rw [hlen, show p + ((labelsBytesCore (splitDot q)).length + 1) =
        p + (labelsBytesCore (splitDot q)).length + 1 by omega]
  rw [write_qname]
  exact run_seq hg1 (write_at (by omega) 0)

/-- Reading back an uncompressed label image: the `read_qname` loop over
the label list `ls` laid out at `p`, never jumping. -/
theorem read_qname_aux_readBack (ls : List (List Nat)) :
    ∀ (fuel : Nat) (f : Nat → Nat) (cursor p : Nat) (ret delim : List Nat),
      ls.length < fuel → cursor < 512 →
      (∀ l ∈ ls, 0 < l.length ∧ l.length ≤ 63 ∧ ∀ b ∈ l, b < 256) →
      bytesAt f p (labelsBytes ls) →
      p + (labelsBytes ls).length ≤ 512 →
      read_qname_aux fuel ⟨f, cursor⟩ p false 0 ret delim =
        .ok ((ret ++ joinLower delim ls, 0), ⟨f, p + (labelsBytes ls).length⟩) := by
  induction ls with
  | nil =>
    intro fuel f cursor p ret delim hfuel hcur hlab hbytes hend
    cases fuel with
    | zero => omega
    | succ fuel2 =>
      have hp : p < 512 := by
        have hpos := labelsBytes_length_pos ([] : List (List Nat))
        omega
      have hf0 : f p = 0 := by
        have h0 := hbytes 0 (by simp [labelsBytes])
        simpa [labelsBytes] using h0
      rw [read_qname_aux]
      simp [maxJumps, get_at hcur hp, hf0, joinLower, labelsBytes]
  | cons l rest ih =>
    intro fuel f cursor p ret delim hfuel hcur hlab hbytes hend
    cases fuel with
    | zero => simp at hfuel
    | succ fuel2 =>
      obtain ⟨hl0, hl63, hlb⟩ := hlab l (by simp)
      have hshape : labelsBytes (l :: rest) =
          l.length % 256 :: (l.map (· % 256) ++ labelsBytes rest) := by
        rw [labelsBytes]
        simp
      rw [hshape] at hbytes hend
      rw [bytesAt_cons] at hbytes
      obtain ⟨hlenbyte, hrest1⟩ := hbytes
      rw [bytesAt_append] at hrest1
      obtain ⟨hlabelbytes, hrestbytes⟩ := hrest1
      rw [List.length_map] at hrestbytes
      simp only [List.length_cons, List.length_append, List.length_map] at hend
      have hrlen : 0 < (labelsBytes rest).length := labelsBytes_length_pos rest
      have hp : p < 512 := by omega
      have hmod : l.length % 256 = l.length := Nat.mod_eq_of_lt (by omega)
      have hflen : f p = l.length := by rw [hlenbyte, hmod]
      have hlmap : l.map (· % 256) = l := by
        rw [List.map_congr_left (fun b hb => Nat.mod_eq_of_lt (hlb b hb))]
        exact List.map_id l
      have hC0 : ¬(l.length &&& 0xC0 = 0xC0) := by
        rw [and_c0_of_le63 hl63]
        simp
      have hne : ¬(l.length = 0) := by omega
      have hrange : (p + 1) + l.length < 512 := by omega
      have hslice : (List.range l.length).map (fun i => f (p + 1 + i)) = l := by
        have h2 := map_range_of_bytesAt hlabelbytes
        rw [List.length_map, hlmap] at h2
        exact h2
      rw [read_qname_aux]
      rw [if_neg (show ¬((0 : Nat) > maxJumps) by simp [maxJumps])]
      rw [get_at hcur hp, hflen]
      show (if l.length &&& 0xC0 = 0xC0 then _ else _) = _
      rw [if_neg hC0, if_neg hne, get_range_at hrange]
      show read_qname_aux fuel2 ⟨f, cursor⟩ (p + 1 + l.length) false 0
          (ret ++ delim ++ lowerBytes ((List.range l.length).map (fun i => f (p + 1 + i))))
          [46] = _
      rw [hslice]
      rw [ih fuel2 f cursor (p + 1 + l.length) (ret ++ delim ++ lowerBytes l) [46]
          (by simp at hfuel; omega) hcur (fun x hx => hlab x (by simp [hx]))
          (by rw [show p + 1 + l.length = p + 1 + l.length from rfl]; exact hrestbytes)
          (by omega)]
      rw [joinLower]
      simp only [RRes.ok.injEq, Prod.mk.injEq, BytePacketBuffer.mk.injEq]
      refine ⟨⟨by simp, trivial⟩, trivial, ?_⟩
      rw [hshape]
      simp
      omega

/-- `read_qname` over a buffer holding the image of `write_qname q`. -/
theorem read_qname_full_readBack (q : List Nat) (f : Nat → Nat) (p : Nat)
    (hlab : ∀ l ∈ splitDot q, 0 < l.length ∧ l.length ≤ 63 ∧ ∀ b ∈ l, b < 256)
    (hbytes : bytesAt f p (qnameBytes q))
    (hend : p + (qnameBytes q).length ≤ 512) :
    read_qname_full ⟨f, p⟩ =
      .ok ((lowerBytes q, 0), ⟨f, p + (qnameBytes q).length⟩) := by
  have hpos : 0 < (qnameBytes q).length := labelsBytes_length_pos (splitDot q)
  have hp : p < 512 := by omega
  rw [BytePacketBuffer.read_qname_full]
  show read_qname_aux 4000 ⟨f, p⟩ p false 0 [] [] = _
  have hlslen : (splitDot q).length < 4000 := by
    have h1 : (splitDot q).length ≤ (labelsBytes (splitDot q)).length := by
      clear hbytes hend hlab hpos
      induction splitDot q with
      | nil => simp [labelsBytes]
      | cons l rest ih2 => simp [labelsBytes]; omega
    have h2 : (qnameBytes q).length ≤ 512 := by omega
    rw [qnameBytes] at h2
    omega
  rw [read_qname_aux_readBack (splitDot q) 4000 f p p [] [] hlslen hp hlab hbytes hend]
  rw [List.nil_append, joinLower_splitDot]
  rfl

/-- C5: writing any dotted name whose labels have length 1..=63 (bytes
modelled as ASCII) into a fresh buffer with `write_qname` and reading it
back with `read_qname` from position 0 yields the lowercased name. -/
theorem c5_qname_roundtrip (q : List Nat)
    (hlab : ∀ l ∈ splitDot q, 0 < l.length ∧ l.length ≤ 63 ∧ ∀ b ∈ l, b < 128)
    (hfit : (qnameBytes q).length ≤ 512) :
    read_qname_name (qnameWriteBuf q) = .ok (lowerBytes q) := by
  obtain ⟨g, hrun⟩ := write_qname_run q (fun _ => 0) 0
    (fun l hl => (hlab l hl).2.1) (by omega)
  have hnew : BytePacketBuffer.new = ⟨fun _ => 0, 0⟩ := rfl
  have hbuf : qnameWriteBuf q = ⟨g, 0⟩ := by
    rw [qnameWriteBuf, hnew, hrun]
  have hsh := writerOk_write_qname q ⟨fun _ => 0, 0⟩ ⟨g, 0 + (qnameBytes q).length⟩
    (by simp) hrun
  have hbytes : bytesAt g 0 (qnameBytes q) := hsh.image
  have hfull := read_qname_full_readBack q g 0
    (fun l hl => ⟨(hlab l hl).1, (hlab l hl).2.1,
      fun b hb => lt_trans ((hlab l hl).2.2 b hb) (by omega)⟩)
    hbytes (by omega)
  rw [BytePacketBuffer.read_qname_name, hbuf, hfull]

/-- C5 witness: the name `aB.c` round-trips to `ab.c`. -/
theorem c5_qname_roundtrip_witness :
    read_qname_name (qnameWriteBuf [97, 66, 46, 99]) = .ok (lowerBytes [97, 66, 46, 99]) :=
  c5_qname_roundtrip [97, 66, 46, 99] (by decide) (by decide)

/-! ### Header codec -/

theorem run_step {α β : Type} {x : M α} {g : α → M β} {s s1 s2 : BytePacketBuffer}
    {a : α} {b : β} (h1 : x s = .ok (a, s1)) (h2 : g a s1 = .ok (b, s2)) :
    (x >>= g) s = .ok (b, s2) := by
  rw [M.run_bind, h1]
  exact h2

theorem split_hi {hi lo : Nat} (hlo : lo < 256) :
    ((hi <<< 8) ||| lo) >>> 8 = hi := by
  rw [orAdd_8 hlo, shiftRight8_eq]
  omega

theorem split_lo {hi lo : Nat} (hlo : lo < 256) :
    ((hi <<< 8) ||| lo) &&& 0xFF = lo := by
  rw [orAdd_8 hlo, and255_eq_mod]
  omega

theorem read_u16_image {f : Nat → Nat} {p v : Nat} (hv : v < 65536)
    (h0 : f p = (v >>> 8) % 256) (h1 : f (p + 1) = (v &&& 0xFF) % 256)
    (hend : p + 2 ≤ 512) :
    read_u16 ⟨f, p⟩ = .ok (v, ⟨f, p + 2⟩) := by
  rw [read_u16_at hend h0 h1, u16_recompose hv]

theorem read_u32_image {f : Nat → Nat} {p v : Nat} (hv : v < 4294967296)
    (h0 : f p = ((v >>> 24) &&& 0xFF) % 256) (h1 : f (p + 1) = ((v >>> 16) &&& 0xFF) % 256)
    (h2 : f (p + 2) = ((v >>> 8) &&& 0xFF) % 256) (h3 : f (p + 3) = (v &&& 0xFF) % 256)
    (hend : p + 4 ≤ 512) :
    read_u32 ⟨f, p⟩ = .ok (v, ⟨f, p + 4⟩) := by
  rw [read_u32_at hend h0 h1 h2 h3, u32_recompose hv]

theorem unpackA_rd (rd tc aa qr : Bool) (op : Nat) (hop : op < 16) :
    decide (0 < ((rd.toNat ||| (tc.toNat <<< 1) ||| (aa.toNat <<< 2) ||| (op <<< 3)
      ||| (qr.toNat <<< 7)) % 256) &&& (1 <<< 0)) = rd := by
  revert hop
  revert op
  cases rd <;> cases tc <;> cases aa <;> cases qr <;> decide

theorem unpackA_tc (rd tc aa qr : Bool) (op : Nat) (hop : op < 16) :
    decide (0 < ((rd.toNat ||| (tc.toNat <<< 1) ||| (aa.toNat <<< 2) ||| (op <<< 3)
      ||| (qr.toNat <<< 7)) % 256) &&& (1 <<< 1)) = tc := by
  revert hop
  revert op
  cases rd <;> cases tc <;> cases aa <;> cases qr <;> decide

theorem unpackA_aa (rd tc aa qr : Bool) (op : Nat) (hop : op < 16) :
    decide (0 < ((rd.toNat ||| (tc.toNat <<< 1) ||| (aa.toNat <<< 2) ||| (op <<< 3)
      ||| (qr.toNat <<< 7)) % 256) &&& (1 <<< 2)) = aa := by
  revert hop
  revert op
  cases rd <;> cases tc <;> cases aa <;> cases qr <;> decide

theorem unpackA_op (rd tc aa qr : Bool) (op : Nat) (hop : op < 16) :
    (((rd.toNat ||| (tc.toNat <<< 1) ||| (aa.toNat <<< 2) ||| (op <<< 3)
      ||| (qr.toNat <<< 7)) % 256) >>> 3) &&& 0x0F = op := by
  revert hop
  revert op
  cases rd <;> cases tc <;> cases aa <;> cases qr <;> decide

theorem unpackA_qr (rd tc aa qr : Bool) (op : Nat) (hop : op < 16) :
    decide (0 < ((rd.toNat ||| (tc.toNat <<< 1) ||| (aa.toNat <<< 2) ||| (op <<< 3)
      ||| (qr.toNat <<< 7)) % 256) &&& (1 <<< 7)) = qr := by
  revert hop
  revert op
  cases rd <;> cases tc <;> cases aa <;> cases qr <;> decide

theorem unpackB_rc (cd ad z ra : Bool) (v : Nat) (hv : v < 12) :
    ((v ||| (cd.toNat <<< 4) ||| (ad.toNat <<< 5) ||| (z.toNat <<< 6)
      ||| (ra.toNat <<< 7)) % 256) &&& 0x0F = v := by
  revert hv
  revert v
  cases cd <;> cases ad <;> cases z <;> cases ra <;> decide

theorem unpackB_cd (cd ad z ra : Bool) (v : Nat) (hv : v < 12) :
    decide (0 < ((v ||| (cd.toNat <<< 4) ||| (ad.toNat <<< 5) ||| (z.toNat <<< 6)
      ||| (ra.toNat <<< 7)) % 256) &&& (1 <<< 4)) = cd := by
  revert hv
  revert v
  cases cd <;> cases ad <;> cases z <;> cases ra <;> decide

theorem unpackB_ad (cd ad z ra : Bool) (v : Nat) (hv : v < 12) :
    decide (0 < ((v ||| (cd.toNat <<< 4) ||| (ad.toNat <<< 5) ||| (z.toNat <<< 6)
      ||| (ra.toNat <<< 7)) % 256) &&& (1 <<< 5)) = ad := by
  revert hv
  revert v
  cases cd <;> cases ad <;> cases z <;> cases ra <;> decide

theorem unpackB_z (cd ad z ra : Bool) (v : Nat) (hv : v < 12) :
    decide (0 < ((v ||| (cd.toNat <<< 4) ||| (ad.toNat <<< 5) ||| (z.toNat <<< 6)
      ||| (ra.toNat <<< 7)) % 256) &&& (1 <<< 6)) = z := by
  revert hv
  revert v
  cases cd <;> cases ad <;> cases z <;> cases ra <;> decide

theorem unpackB_ra (cd ad z ra : Bool) (v : Nat) (hv : v < 12) :
    decide (0 < ((v ||| (cd.toNat <<< 4) ||| (ad.toNat <<< 5) ||| (z.toNat <<< 6)
      ||| (ra.toNat <<< 7)) % 256) &&& (1 <<< 7)) = ra := by
  revert hv
  revert v
  cases cd <;> cases ad <;> cases z <;> cases ra <;> decide

theorem fromU8_toU8 (rc : ResultCode) (h : rc.toU8 < 12) :
    ResultCode.fromU8 rc.toU8 = rc := by
  cases rc <;> revert h <;> decide

/-- Reading back the 12 bytes `Header::write` lays down restores the
header, provided the opcode and rcode fit their 4-bit fields and every
16-bit field is in range. -/
theorem header_read_image (h : Header) (f : Nat → Nat) (p : Nat)
    (hv : validHeader h = true)
    (hq : h.questions < 65536) (han : h.answers < 65536)
    (hau : h.authoritative_entries < 65536) (hre : h.resource_entries < 65536)
    (hb : bytesAt f p (headerBytes h)) (hend : p + 12 ≤ 512) :
    Header.read ⟨f, p⟩ = .ok (h, ⟨f, p + 12⟩) := by
  obtain ⟨⟨hid, hop⟩, hrc⟩ : (h.id < 65536 ∧ h.opcode < 16) ∧ h.rescode.toU8 < 12 := by
    simpa [validHeader] using hv
  have hlen : (headerBytes h).length = 12 := by simp [headerBytes, u16Bytes]
  have e0 : f p = (h.id >>> 8) % 256 := by
    have hx := hb 0 (by rw [hlen]; omega)
    simpa [headerBytes, u16Bytes] using hx
  have e1 : f (p + 1) = (h.id &&& 0xFF) % 256 := by
    have hx := hb 1 (by rw [hlen]; omega)
    simpa [headerBytes, u16Bytes] using hx
  have e2 : f (p + 2) = headerABits h % 256 := by
    have hx := hb 2 (by rw [hlen]; omega)
    simpa [headerBytes, u16Bytes] using hx
  have e3 : f (p + 2 + 1) = headerBBits h % 256 := by
    have hx := hb 3 (by rw [hlen]; omega)
    rw [show p + 2 + 1 = p + 3 by omega]
    simpa [headerBytes, u16Bytes] using hx
  have e4 : f (p + 4) = (h.questions >>> 8) % 256 := by
    have hx := hb 4 (by rw [hlen]; omega)
    simpa [headerBytes, u16Bytes] using hx
  have e5 : f (p + 4 + 1) = (h.questions &&& 0xFF) % 256 := by
    have hx := hb 5 (by rw [hlen]; omega)
    rw [show p + 4 + 1 = p + 5 by omega]
    simpa [headerBytes, u16Bytes] using hx
  have e6 : f (p + 6) = (h.answers >>> 8) % 256 := by
    have hx := hb 6 (by rw [hlen]; omega)
    simpa [headerBytes, u16Bytes] using hx
  have e7 : f (p + 6 + 1) = (h.answers &&& 0xFF) % 256 := by
    have hx := hb 7 (by rw [hlen]; omega)
    rw [show p + 6 + 1 = p + 7 by omega]
    simpa [headerBytes, u16Bytes] using hx
  have e8 : f (p + 8) = (h.authoritative_entries >>> 8) % 256 := by
    have hx := hb 8 (by rw [hlen]; omega)
    simpa [headerBytes, u16Bytes] using hx
  have e9 : f (p + 8 + 1) = (h.authoritative_entries &&& 0xFF) % 256 := by
    have hx := hb 9 (by rw [hlen]; omega)
    rw [show p + 8 + 1 = p + 9 by omega]
    simpa [headerBytes, u16Bytes] using hx
  have e10 : f (p + 10) = (h.resource_entries >>> 8) % 256 := by
    have hx := hb 10 (by rw [hlen]; omega)
    simpa [headerBytes, u16Bytes] using hx
  have e11 : f (p + 10 + 1) = (h.resource_entries &&& 0xFF) % 256 := by
    have hx := hb 11 (by rw [hlen]; omega)
    rw [show p + 10 + 1 = p + 11 by omega]
    simpa [headerBytes, u16Bytes] using hx
  have r1 : read_u16 ⟨f, p⟩ = .ok (h.id, ⟨f, p + 2⟩) :=
    read_u16_image hid e0 e1 (by omega)
  have r2 : read_u16 ⟨f, p + 2⟩ =
      .ok (((headerABits h % 256) <<< 8) ||| (headerBBits h % 256), ⟨f, p + 4⟩) := by
    rw [show p + 4 = p + 2 + 2 by omega]
    exact read_u16_at (by omega) e2 e3
  have r3 : read_u16 ⟨f, p + 4⟩ = .ok (h.questions, ⟨f, p + 6⟩) := by
    rw [show p + 6 = p + 4 + 2 by omega]
    exact read_u16_image hq e4 e5 (by omega)
  have r4 : read_u16 ⟨f, p + 6⟩ = .ok (h.answers, ⟨f, p + 8⟩) := by
    rw [show p + 8 = p + 6 + 2 by omega]
    exact read_u16_image han e6 e7 (by omega)
  have r5 : read_u16 ⟨f, p + 8⟩ = .ok (h.authoritative_entries, ⟨f, p + 10⟩) := by
    rw [show p + 10 = p + 8 + 2 by omega]
    exact read_u16_image hau e8 e9 (by omega)
  have r6 : read_u16 ⟨f, p + 10⟩ = .ok (h.resource_entries, ⟨f, p + 12⟩) := by
    rw [show p + 12 = p + 10 + 2 by omega]
    exact read_u16_image hre e10 e11 (by omega)
  unfold Header.read
  refine run_step r1 (run_step r2 (run_step r3 (run_step r4 (run_step r5 (run_step r6 ?_)))))
  rw [M.run_pure]
  have ea : (((headerABits h % 256) <<< 8) ||| (headerBBits h % 256)) >>> 8 =
      headerABits h % 256 := split_hi (by omega)
  have eb : (((headerABits h % 256) <<< 8) ||| (headerBBits h % 256)) &&& 0xFF =
      headerBBits h % 256 := split_lo (by omega)
  rw [ea, eb]
  simp only [headerABits, headerBBits]
  simp only [unpackA_rd _ _ _ _ _ hop, unpackA_tc _ _ _ _ _ hop, unpackA_aa _ _ _ _ _ hop,
    unpackA_op _ _ _ _ _ hop, unpackA_qr _ _ _ _ _ hop,
    unpackB_rc _ _ _ _ _ hrc, unpackB_cd _ _ _ _ _ hrc, unpackB_ad _ _ _ _ _ hrc,
    unpackB_z _ _ _ _ _ hrc, unpackB_ra _ _ _ _ _ hrc, fromU8_toU8 _ hrc]

/-! ### Writer images for the message layers -/

/-- `write_range` never advances the cursor, so as a writer its image at
the cursor is empty (the copied bytes land above the unmoved cursor and
are overwritten by whatever is written next). -/
theorem writerOk_write_range (v : List Nat) : WriterOk (write_range v) [] := by
  intro s s1 hle h
  unfold BytePacketBuffer.write_range at h
  split at h
  · cases h
    refine ⟨by simp, ?_, bytesAt_nil _ _, by simpa using hle⟩
    intro i hi
    simp [show ¬(s.pos ≤ i ∧ i < s.pos + v.length) by omega]
  · cases h

theorem writerOk_header (h : Header) : WriterOk h.write (headerBytes h) := by
  have hh := writerOk_bind (writerOk_write_u16 h.id)
    (writerOk_bind (writerOk_write_u8 (headerABits h))
      (writerOk_bind (writerOk_write_u8 (headerBBits h))
        (writerOk_bind (writerOk_write_u16 h.questions)
          (writerOk_bind (writerOk_write_u16 h.answers)
            (writerOk_bind (writerOk_write_u16 h.authoritative_entries)
              (writerOk_write_u16 h.resource_entries))))))
  exact writerOk_congr hh (by simp [headerBytes])

theorem writerOk_question (q : Question) : WriterOk q.write (questionBytes q) := by
  have hh := writerOk_bind (writerOk_write_qname q.name)
    (writerOk_bind (writerOk_write_u16 q.qtype.toU16) (writerOk_write_u16 q.qclass))
  exact writerOk_congr hh (by simp [questionBytes])

theorem writerOk_record (r : Record) : WriterOk r.write (recordBytes r) := by
  obtain ⟨name, qtype, qclass, ttl, rdlen, rdata⟩ := r
  cases rdata with
  | A addr =>
    have hh := writerOk_bind (writerOk_write_qname name)
      (writerOk_bind (writerOk_write_u16 QueryType.A.toU16)
        (writerOk_bind (writerOk_write_u16 qclass)
          (writerOk_bind (writerOk_write_u32 ttl)
            (writerOk_bind (writerOk_write_u16 4)
              (writerOk_bind (writerOk_write_u8 addr.o0)
                (writerOk_bind (writerOk_write_u8 addr.o1)
                  (writerOk_bind (writerOk_write_u8 addr.o2)
                    (writerOk_write_u8 addr.o3))))))))
    exact writerOk_congr hh (by simp [recordBytes, QueryType.toU16])
  | AAAA addr =>
    have hh := writerOk_bind (writerOk_write_qname name)
      (writerOk_bind (writerOk_write_u16 QueryType.AAAA.toU16)
        (writerOk_bind (writerOk_write_u16 qclass)
          (writerOk_bind (writerOk_write_u32 ttl)
            (writerOk_bind (writerOk_write_u16 16)
              (writerOk_bind (writerOk_write_u16 addr.s0)
                (writerOk_bind (writerOk_write_u16 addr.s1)
                  (writerOk_bind (writerOk_write_u16 addr.s2)
                    (writerOk_bind (writerOk_write_u16 addr.s3)
                      (writerOk_bind (writerOk_write_u16 addr.s4)
                        (writerOk_bind (writerOk_write_u16 addr.s5)
                          (writerOk_bind (writerOk_write_u16 addr.s6)
                            (writerOk_write_u16 addr.s7))))))))))))
    exact writerOk_congr hh (by simp [recordBytes, QueryType.toU16])
  | CNAME len name2 =>
    have hh := writerOk_bind (writerOk_write_qname name)
      (writerOk_bind (writerOk_write_u16 QueryType.CNAME.toU16)
        (writerOk_bind (writerOk_write_u16 qclass)
          (writerOk_bind (writerOk_write_u32 ttl)
            (writerOk_bind (writerOk_write_u16 len)
              (writerOk_write_qname name2)))))
    exact writerOk_congr hh (by simp [recordBytes, QueryType.toU16])
  | SRV len v =>
    have hh := writerOk_bind (writerOk_write_qname name)
      (writerOk_bind (writerOk_write_u16 QueryType.SRV.toU16)
        (writerOk_bind (writerOk_write_u16 qclass)
          (writerOk_bind (writerOk_write_u32 ttl)
            (writerOk_bind (writerOk_write_u16 len)
              (writerOk_bind (writerOk_write_u16 v.priority)
                (writerOk_bind (writerOk_write_u16 v.weight)
                  (writerOk_bind (writerOk_write_u16 v.port)
                    (writerOk_write_qname v.target))))))))
    exact writerOk_congr hh (by simp [recordBytes, QueryType.toU16])
  | Unknown qt v =>
    have hh := writerOk_bind (writerOk_write_qname name)
      (writerOk_bind (writerOk_write_u16 qt.toU16)
        (writerOk_bind (writerOk_write_u16 qclass)
          (writerOk_bind (writerOk_write_u32 ttl)
            (writerOk_bind (writerOk_write_u16 v.length)
              (writerOk_write_range v)))))
    exact writerOk_congr hh (by simp [recordBytes])

theorem writerOk_questions (qs : List Question) :
    WriterOk (writeQuestions qs) (questionsBytes qs) := by
  induction qs with
  | nil => exact writerOk_congr writerOk_pure (by simp [questionsBytes])
  | cons q rest ih =>
    exact writerOk_congr (writerOk_bind (writerOk_question q) ih)
      (by simp [questionsBytes])

theorem writerOk_records (rs : List Record) :
    WriterOk (writeRecords rs) (recordsBytes rs) := by
  induction rs with
  | nil => exact writerOk_congr writerOk_pure (by simp [recordsBytes])
  | cons r rest ih =>
    exact writerOk_congr (writerOk_bind (writerOk_record r) ih)
      (by simp [recordsBytes])

theorem writerOk_message (m : Message) : WriterOk m.write (messageBytes m) := by
  have hh := writerOk_bind (writerOk_header m.normalizeCounts.header)
    (writerOk_bind (writerOk_questions m.questions)
      (writerOk_bind (writerOk_records m.answers)
        (writerOk_bind (writerOk_records m.authorities)
          (writerOk_records m.resources))))
  exact writerOk_congr hh (by simp [messageBytes])

/-! ### Bit extraction for the rdata decoders -/

theorem octet_extract_0 {b0 b1 b2 b3 : Nat} (h0 : b0 < 256) (h1 : b1 < 256)
    (h2 : b2 < 256) (h3 : b3 < 256) :
    (((b0 <<< 24) ||| (b1 <<< 16) ||| (b2 <<< 8) ||| b3) >>> 24) &&& 0xFF = b0 := by
  rw [four_bytes_recompose h1 h2 h3, shiftRight24_eq, and255_eq_mod]
  omega

theorem octet_extract_1 {b0 b1 b2 b3 : Nat} (h1 : b1 < 256) (h2 : b2 < 256)
    (h3 : b3 < 256) :
    (((b0 <<< 24) ||| (b1 <<< 16) ||| (b2 <<< 8) ||| b3) >>> 16) &&& 0xFF = b1 := by
  rw [four_bytes_recompose h1 h2 h3, shiftRight16_eq, and255_eq_mod]
  omega

theorem octet_extract_2 {b0 b1 b2 b3 : Nat} (h1 : b1 < 256) (h2 : b2 < 256)
    (h3 : b3 < 256) :
    (((b0 <<< 24) ||| (b1 <<< 16) ||| (b2 <<< 8) ||| b3) >>> 8) &&& 0xFF = b2 := by
  rw [four_bytes_recompose h1 h2 h3, shiftRight8_eq, and255_eq_mod]
  omega

theorem octet_extract_3 {b0 b1 b2 b3 : Nat} (h1 : b1 < 256) (h2 : b2 < 256)
    (h3 : b3 < 256) :
    ((b0 <<< 24) ||| (b1 <<< 16) ||| (b2 <<< 8) ||| b3) &&& 0xFF = b3 := by
  rw [four_bytes_recompose h1 h2 h3, and255_eq_mod]
  omega

theorem seg_extract_hi {s0 s1 : Nat} (h0 : s0 < 65536) (h1 : s1 < 65536) :
    (((((s0 >>> 8) % 256) <<< 24) ||| (((s0 &&& 0xFF) % 256) <<< 16)
      ||| (((s1 >>> 8) % 256) <<< 8) ||| ((s1 &&& 0xFF) % 256)) >>> 16) &&& 0xFFFF = s0 := by
  rw [four_bytes_recompose (by omega) (by omega) (by omega)]
  simp only [and65535_eq_mod, and255_eq_mod, shiftRight8_eq, shiftRight16_eq]
  omega

theorem seg_extract_lo {s0 s1 : Nat} (_h0 : s0 < 65536) (h1 : s1 < 65536) :
    ((((s0 >>> 8) % 256) <<< 24) ||| (((s0 &&& 0xFF) % 256) <<< 16)
      ||| (((s1 >>> 8) % 256) <<< 8) ||| ((s1 &&& 0xFF) % 256)) &&& 0xFFFF = s1 := by
  rw [four_bytes_recompose (by omega) (by omega) (by omega)]
  simp only [and65535_eq_mod, and255_eq_mod, shiftRight8_eq]
  omega

/-! ### Reading back the question and record images -/

theorem validName_spec {q : List Nat} (h : validName q = true) :
    (∀ l ∈ splitDot q, 0 < l.length ∧ l.length ≤ 63 ∧ ∀ b ∈ l, b < 256) ∧
      lowerBytes q = q := by
  rw [validName, Bool.and_eq_true, List.all_eq_true, decide_eq_true_eq] at h
  obtain ⟨h1, h2⟩ := h
  refine ⟨fun l hl => ?_, h2⟩
  have h3 := h1 l hl
  rw [validLabel, Bool.and_eq_true, Bool.and_eq_true, decide_eq_true_eq,
      decide_eq_true_eq, List.all_eq_true] at h3
  obtain ⟨⟨ha, hb⟩, hc⟩ := h3
  refine ⟨ha, hb, fun b hb2 => ?_⟩
  have h4 := hc b hb2
  rw [decide_eq_true_eq] at h4
  omega

theorem read_qname_image {q : List Nat} {f : Nat → Nat} {p : Nat}
    (hv : validName q = true) (hb : bytesAt f p (qnameBytes q))
    (hend : p + (qnameBytes q).length ≤ 512) :
    read_qname ⟨f, p⟩ = .ok (q, ⟨f, p + (qnameBytes q).length⟩) := by
  obtain ⟨hlab, hlow⟩ := validName_spec hv
  have hfull := read_qname_full_readBack q f p hlab hb hend
  simp only [BytePacketBuffer.read_qname]
  rw [hfull, hlow]

theorem u16_bytesAt_read {f : Nat → Nat} {p v : Nat}
    (hb : bytesAt f p (u16Bytes v)) (hv : v < 65536) (hend : p + 2 ≤ 512) :
    read_u16 ⟨f, p⟩ = .ok (v, ⟨f, p + 2⟩) := by
  rw [u16Bytes, bytesAt_cons, bytesAt_cons] at hb
  obtain ⟨h0, h1, _⟩ := hb
  exact read_u16_image hv (by simpa using h0) (by simpa using h1) hend

theorem u32_bytesAt_raw {f : Nat → Nat} {p v : Nat}
    (hb : bytesAt f p (u32Bytes v)) (hend : p + 4 ≤ 512) :
    read_u32 ⟨f, p⟩ =
      .ok (((((v >>> 24) &&& 0xFF) % 256) <<< 24) ||| ((((v >>> 16) &&& 0xFF) % 256) <<< 16)
        ||| ((((v >>> 8) &&& 0xFF) % 256) <<< 8) ||| ((v &&& 0xFF) % 256), ⟨f, p + 4⟩) := by
  rw [u32Bytes, bytesAt_cons, bytesAt_cons, bytesAt_cons, bytesAt_cons] at hb
  obtain ⟨h0, h1, h2, h3, _⟩ := hb
  exact read_u32_at hend (by simpa using h0) (by simpa using h1)
    (by simpa using h2) (by simpa using h3)

theorem u32_bytesAt_read {f : Nat → Nat} {p v : Nat}
    (hb : bytesAt f p (u32Bytes v)) (hv : v < 4294967296) (hend : p + 4 ≤ 512) :
    read_u32 ⟨f, p⟩ = .ok (v, ⟨f, p + 4⟩) := by
  rw [u32_bytesAt_raw hb hend, u32_recompose hv]

theorem question_read_image (q : Question) (f : Nat → Nat) (p : Nat)
    (hv : validQuestion q = true) (hb : bytesAt f p (questionBytes q))
    (hend : p + (questionBytes q).length ≤ 512) :
    Question.read ⟨f, p⟩ = .ok (q, ⟨f, p + (questionBytes q).length⟩) := by
  obtain ⟨name, qtype, qclass⟩ := q
  simp only [validQuestion, validQType, Bool.and_eq_true, decide_eq_true_eq] at hv
  obtain ⟨⟨hname, hqt16, hqtrt⟩, hclass⟩ := hv
  have hshape : questionBytes ⟨name, qtype, qclass⟩ =
      qnameBytes name ++ (u16Bytes qtype.toU16 ++ u16Bytes qclass) := by
    simp [questionBytes]
  have hlen : (questionBytes ⟨name, qtype, qclass⟩).length =
      (qnameBytes name).length + 4 := by
    simp [questionBytes, u16Bytes]
  rw [hshape, bytesAt_append, bytesAt_append] at hb
  obtain ⟨hbn, hbt, hbc⟩ := hb
  rw [hlen] at hend ⊢
  rw [show (u16Bytes qtype.toU16).length = 2 from rfl] at hbc
  have h1 := read_qname_image hname hbn (by omega)
  have h2 := u16_bytesAt_read hbt hqt16 (by omega)
  have h3 : read_u16 ⟨f, p + (qnameBytes name).length + 2⟩ =
      .ok (qclass, ⟨f, p + ((qnameBytes name).length + 4)⟩) := by
    rw [show p + ((qnameBytes name).length + 4) = p + (qnameBytes name).length + 2 + 2 by omega]
    exact u16_bytesAt_read hbc hclass (by omega)
  unfold Question.read
  refine run_step h1 (run_step h2 (run_step h3 ?_))
  rw [M.run_pure, hqtrt]

theorem bytesAt_four {f : Nat → Nat} {P b0 b1 b2 b3 : Nat}
    (h : bytesAt f P [b0, b1, b2, b3]) :
    f P = b0 ∧ f (P + 1) = b1 ∧ f (P + 2) = b2 ∧ f (P + 3) = b3 := by
  have h0 := h 0 (by simp)
  have h1 := h 1 (by simp)
  have h2 := h 2 (by simp)
  have h3 := h 3 (by simp)
  simp at h0 h1 h2 h3
  exact ⟨h0, h1, h2, h3⟩

/-- Reading back the bytes `Record::write` lays down restores the record,
for records whose rdata is consistent with its envelope (and, forced by
the `write_range` cursor slip, whose `Unknown` payload is empty). The
strict end bound matches the strict `read_range` guard the `Unknown`
branch runs even on an empty payload. -/
theorem record_read_image (r : Record) (f : Nat → Nat) (p : Nat)
    (hv : validRecord r = true) (hb : bytesAt f p (recordBytes r))
    (hend : p + (recordBytes r).length < 512) :
    Record.read ⟨f, p⟩ = .ok (r, ⟨f, p + (recordBytes r).length⟩) := by
  obtain ⟨name, qtype, qclass, ttl, rdlen, rdata⟩ := r
  simp only [validRecord, Bool.and_eq_true, decide_eq_true_eq] at hv
  obtain ⟨⟨⟨hname, hclass⟩, httl⟩, hrd⟩ := hv
  cases rdata with
  | A addr =>
    obtain ⟨o0, o1, o2, o3⟩ := addr
    simp only [validRData, Bool.and_eq_true, decide_eq_true_eq] at hrd
    obtain ⟨⟨⟨⟨⟨hq, hr4⟩, ho0⟩, ho1⟩, ho2⟩, ho3⟩ := hrd
    subst hq
    subst hr4
    have hshape : recordBytes ⟨name, .A, qclass, ttl, 4, .A ⟨o0, o1, o2, o3⟩⟩ =
        qnameBytes name ++ (u16Bytes 1 ++ (u16Bytes qclass ++ (u32Bytes ttl ++
          (u16Bytes 4 ++ [o0 % 256, o1 % 256, o2 % 256, o3 % 256])))) := by
      simp [recordBytes]
    have hL : (recordBytes ⟨name, .A, qclass, ttl, 4, .A ⟨o0, o1, o2, o3⟩⟩).length =
        (qnameBytes name).length + 14 := by
      simp only [recordBytes, List.length_append, u16Bytes, u32Bytes,
        List.length_cons, List.length_nil]
    rw [hshape] at hb
    rw [hL] at hend ⊢
    rw [bytesAt_append] at hb
    obtain ⟨hbname, hb⟩ := hb
    rw [bytesAt_append] at hb
    obtain ⟨hbtype, hb⟩ := hb
    rw [show (u16Bytes (1 : Nat)).length = 2 from rfl] at hb
    rw [bytesAt_append] at hb
    obtain ⟨hbclass, hb⟩ := hb
    rw [show (u16Bytes qclass).length = 2 from rfl] at hb
    rw [bytesAt_append] at hb
    obtain ⟨hbttl, hb⟩ := hb
    rw [show (u32Bytes ttl).length = 4 from rfl] at hb
    rw [bytesAt_append] at hb
    obtain ⟨hbrdlen, hbdata⟩ := hb
    rw [show (u16Bytes (4 : Nat)).length = 2 from rfl] at hbdata
    obtain ⟨hc0, hc1, hc2, hc3⟩ := bytesAt_four hbdata
    have h1 := read_qname_image hname hbname (by omega)
    have h2 := u16_bytesAt_read hbtype (by omega) (by omega)
    have h3 := u16_bytesAt_read hbclass hclass (by omega)
    have h4 := u32_bytesAt_read hbttl httl (by omega)
    have h5 := u16_bytesAt_read hbrdlen (by omega) (by omega)
    have h6 : read_u32 ⟨f, p + (qnameBytes name).length + 2 + 2 + 4 + 2⟩ =
        .ok (((o0 % 256) <<< 24) ||| ((o1 % 256) <<< 16) ||| ((o2 % 256) <<< 8) ||| (o3 % 256),
             ⟨f, p + ((qnameBytes name).length + 14)⟩) := by
      rw [show p + ((qnameBytes name).length + 14) =
            p + (qnameBytes name).length + 2 + 2 + 4 + 2 + 4 by omega]
      exact read_u32_at (by omega) hc0 hc1 hc2 hc3
    unfold Record.read
    refine run_step h1 (run_step h2 (run_step h3 (run_step h4 (run_step h5
      (run_step h6 (run_step (M.run_pure _ _) ?_))))))
    simp only [M.run_pure]
    rw [@octet_extract_0 (o0 % 256) (o1 % 256) (o2 % 256) (o3 % 256)
          (by omega) (by omega) (by omega) (by omega),
        @octet_extract_1 (o0 % 256) (o1 % 256) (o2 % 256) (o3 % 256)
          (by omega) (by omega) (by omega),
        @octet_extract_2 (o0 % 256) (o1 % 256) (o2 % 256) (o3 % 256)
          (by omega) (by omega) (by omega),
        @octet_extract_3 (o0 % 256) (o1 % 256) (o2 % 256) (o3 % 256)
          (by omega) (by omega) (by omega),
        Nat.mod_eq_of_lt ho0, Nat.mod_eq_of_lt ho1, Nat.mod_eq_of_lt ho2,
        Nat.mod_eq_of_lt ho3]
    rfl
  | AAAA addr =>
    obtain ⟨s0, s1, s2, s3, s4, s5, s6, s7⟩ := addr
    simp only [validRData, Bool.and_eq_true, decide_eq_true_eq] at hrd
    obtain ⟨⟨⟨⟨⟨⟨⟨⟨⟨hq, hr16⟩, hs0⟩, hs1⟩, hs2⟩, hs3⟩, hs4⟩, hs5⟩, hs6⟩, hs7⟩ := hrd
    subst hq
    subst hr16
    have hshape : recordBytes ⟨name, .AAAA, qclass, ttl, 16,
        .AAAA ⟨s0, s1, s2, s3, s4, s5, s6, s7⟩⟩ =
        qnameBytes name ++ (u16Bytes 28 ++ (u16Bytes qclass ++ (u32Bytes ttl ++
          (u16Bytes 16 ++
            ([(s0 >>> 8) % 256, (s0 &&& 0xFF) % 256, (s1 >>> 8) % 256, (s1 &&& 0xFF) % 256] ++
              ([(s2 >>> 8) % 256, (s2 &&& 0xFF) % 256, (s3 >>> 8) % 256, (s3 &&& 0xFF) % 256] ++
                ([(s4 >>> 8) % 256, (s4 &&& 0xFF) % 256, (s5 >>> 8) % 256, (s5 &&& 0xFF) % 256] ++
                  [(s6 >>> 8) % 256, (s6 &&& 0xFF) % 256, (s7 >>> 8) % 256,
                   (s7 &&& 0xFF) % 256]))))))) := by
      simp [recordBytes, u16Bytes]
    have hL : (recordBytes ⟨name, .AAAA, qclass, ttl, 16,
        .AAAA ⟨s0, s1, s2, s3, s4, s5, s6, s7⟩⟩).length =
        (qnameBytes name).length + 26 := by
      simp only [recordBytes, List.length_append, u16Bytes, u32Bytes,
        List.length_cons, List.length_nil]
    rw [hshape] at hb
    rw [hL] at hend ⊢
    rw [bytesAt_append] at hb
    obtain ⟨hbname, hb⟩ := hb
    rw [bytesAt_append] at hb
    obtain ⟨hbtype, hb⟩ := hb
    rw [show (u16Bytes (28 : Nat)).length = 2 from rfl] at hb
    rw [bytesAt_append] at hb
    obtain ⟨hbclass, hb⟩ := hb
    rw [show (u16Bytes qclass).length = 2 from rfl] at hb
    rw [bytesAt_append] at hb
    obtain ⟨hbttl, hb⟩ := hb
    rw [show (u32Bytes ttl).length = 4 from rfl] at hb
    rw [bytesAt_append] at hb
    obtain ⟨hbrdlen, hb⟩ := hb
    rw [show (u16Bytes (16 : Nat)).length = 2 from rfl] at hb
    rw [bytesAt_append] at hb
    obtain ⟨hbw1, hb⟩ := hb
    rw [show ([(s0 >>> 8) % 256, (s0 &&& 0xFF) % 256, (s1 >>> 8) % 256,
        (s1 &&& 0xFF) % 256] : List Nat).length = 4 from rfl] at hb
    rw [bytesAt_append] at hb
    obtain ⟨hbw2, hb⟩ := hb
    rw [show ([(s2 >>> 8) % 256, (s2 &&& 0xFF) % 256, (s3 >>> 8) % 256,
        (s3 &&& 0xFF) % 256] : List Nat).length = 4 from rfl] at hb
    rw [bytesAt_append] at hb
    obtain ⟨hbw3, hbw4⟩ := hb
    rw [show ([(s4 >>> 8) % 256, (s4 &&& 0xFF) % 256, (s5 >>> 8) % 256,
        (s5 &&& 0xFF) % 256] : List Nat).length = 4 from rfl] at hbw4
    obtain ⟨ha0, ha1, ha2, ha3⟩ := bytesAt_four hbw1
    obtain ⟨hb0, hb1, hb2, hb3⟩ := bytesAt_four hbw2
    obtain ⟨hg0, hg1, hg2, hg3⟩ := bytesAt_four hbw3
    obtain ⟨hd0, hd1, hd2, hd3⟩ := bytesAt_four hbw4
    have h1 := read_qname_image hname hbname (by omega)
    have h2 := u16_bytesAt_read hbtype (by omega) (by omega)
    have h3 := u16_bytesAt_read hbclass hclass (by omega)
    have h4 := u32_bytesAt_read hbttl httl (by omega)
    have h5 := u16_bytesAt_read hbrdlen (by omega) (by omega)
    have h6 := read_u32_at (show p + (qnameBytes name).length + 2 + 2 + 4 + 2 + 4 ≤ 512
      by omega) ha0 ha1 ha2 ha3
    have h7 := read_u32_at (show p + (qnameBytes name).length + 2 + 2 + 4 + 2 + 4 + 4 ≤ 512
      by omega) hb0 hb1 hb2 hb3
    have h8 := read_u32_at (show p + (qnameBytes name).length + 2 + 2 + 4 + 2 + 4 + 4 + 4 ≤ 512
      by omega) hg0 hg1 hg2 hg3
    have h9 : read_u32 ⟨f, p + (qnameBytes name).length + 2 + 2 + 4 + 2 + 4 + 4 + 4⟩ =
        .ok ((((s6 >>> 8) % 256) <<< 24) ||| (((s6 &&& 0xFF) % 256) <<< 16)
          ||| (((s7 >>> 8) % 256) <<< 8) ||| ((s7 &&& 0xFF) % 256),
          ⟨f, p + ((qnameBytes name).length + 26)⟩) := by
      rw [show p + ((qnameBytes name).length + 26) =
            p + (qnameBytes name).length + 2 + 2 + 4 + 2 + 4 + 4 + 4 + 4 by omega]
      exact read_u32_at (by omega) hd0 hd1 hd2 hd3
    unfold Record.read
    refine run_step h1 (run_step h2 (run_step h3 (run_step h4 (run_step h5
      (run_step h6 (run_step h7 (run_step h8 (run_step h9
        (run_step (M.run_pure _ _) ?_)))))))))
    simp only [M.run_pure]
    rw [seg_extract_hi hs0 hs1, seg_extract_lo hs0 hs1,
        seg_extract_hi hs2 hs3, seg_extract_lo hs2 hs3,
        seg_extract_hi hs4 hs5, seg_extract_lo hs4 hs5,
        seg_extract_hi hs6 hs7, seg_extract_lo hs6 hs7]
    rfl
  | CNAME len name2 =>
    simp only [validRData, Bool.and_eq_true, decide_eq_true_eq] at hrd
    obtain ⟨⟨⟨hq, hrlen⟩, hlen16⟩, hname2⟩ := hrd
    subst hq
    subst hrlen
    have hshape : recordBytes ⟨name, .CNAME, qclass, ttl, rdlen, .CNAME rdlen name2⟩ =
        qnameBytes name ++ (u16Bytes 5 ++ (u16Bytes qclass ++ (u32Bytes ttl ++
          (u16Bytes rdlen ++ qnameBytes name2)))) := by
      simp [recordBytes]
    have hL : (recordBytes ⟨name, .CNAME, qclass, ttl, rdlen, .CNAME rdlen name2⟩).length =
        (qnameBytes name).length + ((qnameBytes name2).length + 10) := by
      simp only [recordBytes, List.length_append, u16Bytes, u32Bytes,
        List.length_cons, List.length_nil]
      omega
    rw [hshape] at hb
    rw [hL] at hend ⊢
    rw [bytesAt_append] at hb
    obtain ⟨hbname, hb⟩ := hb
    rw [bytesAt_append] at hb
    obtain ⟨hbtype, hb⟩ := hb
    rw [show (u16Bytes (5 : Nat)).length = 2 from rfl] at hb
    rw [bytesAt_append] at hb
    obtain ⟨hbclass, hb⟩ := hb
    rw [show (u16Bytes qclass).length = 2 from rfl] at hb
    rw [bytesAt_append] at hb
    obtain ⟨hbttl, hb⟩ := hb
    rw [show (u32Bytes ttl).length = 4 from rfl] at hb
    rw [bytesAt_append] at hb
    obtain ⟨hbrdlen, hbdata⟩ := hb
    rw [show (u16Bytes rdlen).length = 2 from rfl] at hbdata
    have h1 := read_qname_image hname hbname (by omega)
    have h2 := u16_bytesAt_read hbtype (by omega) (by omega)
    have h3 := u16_bytesAt_read hbclass hclass (by omega)
    have h4 := u32_bytesAt_read hbttl httl (by omega)
    have h5 := u16_bytesAt_read hbrdlen hlen16 (by omega)
    have h6 : read_qname ⟨f, p + (qnameBytes name).length + 2 + 2 + 4 + 2⟩ =
        .ok (name2, ⟨f, p + ((qnameBytes name).length + ((qnameBytes name2).length + 10))⟩) := by
      rw [show p + ((qnameBytes name).length + ((qnameBytes name2).length + 10)) =
            p + (qnameBytes name).length + 2 + 2 + 4 + 2 + (qnameBytes name2).length by omega]
      exact read_qname_image hname2 hbdata (by omega)
    unfold Record.read
    refine run_step h1 (run_step h2 (run_step h3 (run_step h4 (run_step h5
      (run_step h6 (run_step (M.run_pure _ _) ?_))))))
    simp only [M.run_pure]
    rfl
  | SRV len v =>
    obtain ⟨pr, w, po, tg⟩ := v
    simp only [validRData, Bool.and_eq_true, decide_eq_true_eq] at hrd
    obtain ⟨⟨⟨⟨⟨⟨hq, hrlen⟩, hlen16⟩, hpr⟩, hw⟩, hpo⟩, htg⟩ := hrd
    subst hq
    subst hrlen
    have hshape : recordBytes ⟨name, .SRV, qclass, ttl, rdlen, .SRV rdlen ⟨pr, w, po, tg⟩⟩ =
        qnameBytes name ++ (u16Bytes 33 ++ (u16Bytes qclass ++ (u32Bytes ttl ++
          (u16Bytes rdlen ++ (u16Bytes pr ++ (u16Bytes w ++ (u16Bytes po ++
            qnameBytes tg))))))) := by
      simp [recordBytes]
    have hL : (recordBytes ⟨name, .SRV, qclass, ttl, rdlen, .SRV rdlen ⟨pr, w, po, tg⟩⟩).length =
        (qnameBytes name).length + ((qnameBytes tg).length + 16) := by
      simp only [recordBytes, List.length_append, u16Bytes, u32Bytes,
        List.length_cons, List.length_nil]
      omega
    rw [hshape] at hb
    rw [hL] at hend ⊢
    rw [bytesAt_append] at hb
    obtain ⟨hbname, hb⟩ := hb
    rw [bytesAt_append] at hb
    obtain ⟨hbtype, hb⟩ := hb
    rw [show (u16Bytes (33 : Nat)).length = 2 from rfl] at hb
    rw [bytesAt_append] at hb
    obtain ⟨hbclass, hb⟩ := hb
    rw [show (u16Bytes qclass).length = 2 from rfl] at hb
    rw [bytesAt_append] at hb
    obtain ⟨hbttl, hb⟩ := hb
    rw [show (u32Bytes ttl).length = 4 from rfl] at hb
    rw [bytesAt_append] at hb
    obtain ⟨hbrdlen, hb⟩ := hb
    rw [show (u16Bytes rdlen).length = 2 from rfl] at hb
    rw [bytesAt_append] at hb
    obtain ⟨hbpr, hb⟩ := hb
    rw [show (u16Bytes pr).length = 2 from rfl] at hb
    rw [bytesAt_append] at hb
    obtain ⟨hbw, hb⟩ := hb
    rw [show (u16Bytes w).length = 2 from rfl] at hb
    rw [bytesAt_append] at hb
    obtain ⟨hbpo, hbtg⟩ := hb
    rw [show (u16Bytes po).length = 2 from rfl] at hbtg
    have h1 := read_qname_image hname hbname (by omega)
    have h2 := u16_bytesAt_read hbtype (by omega) (by omega)
    have h3 := u16_bytesAt_read hbclass hclass (by omega)
    have h4 := u32_bytesAt_read hbttl httl (by omega)
    have h5 := u16_bytesAt_read hbrdlen hlen16 (by omega)
    have h6 := u16_bytesAt_read hbpr hpr (by omega)
    have h7 := u16_bytesAt_read hbw hw (by omega)
    have h8 := u16_bytesAt_read hbpo hpo (by omega)
    have h9 : read_qname ⟨f, p + (qnameBytes name).length + 2 + 2 + 4 + 2 + 2 + 2 + 2⟩ =
        .ok (tg, ⟨f, p + ((qnameBytes name).length + ((qnameBytes tg).length + 16))⟩) := by
      rw [show p + ((qnameBytes name).length + ((qnameBytes tg).length + 16)) =
            p + (qnameBytes name).length + 2 + 2 + 4 + 2 + 2 + 2 + 2 +
              (qnameBytes tg).length by omega]
      exact read_qname_image htg hbtg (by omega)
    unfold Record.read
    refine run_step h1 (run_step h2 (run_step h3 (run_step h4 (run_step h5
      (run_step h6 (run_step h7 (run_step h8 (run_step h9
        (run_step (M.run_pure _ _) ?_)))))))))
    simp only [M.run_pure]
    rfl
  | Unknown qt v =>
    simp only [validRData, validQType, Bool.and_eq_true, decide_eq_true_eq] at hrd
    obtain ⟨⟨⟨⟨hq, hn16, hrt⟩, hdiscr⟩, hve⟩, hr0⟩ := hrd
    subst hq
    subst hr0
    have hv0 : v = [] := by
      cases v with
      | nil => rfl
      | cons b rest => simp [List.isEmpty] at hve
    subst hv0
    cases qtype with
    | UNKNOWN n =>
      simp only [QueryType.toU16] at hn16 hrt
      have hshape : recordBytes ⟨name, .UNKNOWN n, qclass, ttl, 0,
          .Unknown (.UNKNOWN n) []⟩ =
          qnameBytes name ++ (u16Bytes n ++ (u16Bytes qclass ++ (u32Bytes ttl ++
            u16Bytes 0))) := by
        simp [recordBytes, QueryType.toU16]
      have hL : (recordBytes ⟨name, .UNKNOWN n, qclass, ttl, 0,
          .Unknown (.UNKNOWN n) []⟩).length = (qnameBytes name).length + 10 := by
        simp only [recordBytes, List.length_append, u16Bytes, u32Bytes,
          List.length_cons, List.length_nil]
      rw [hshape] at hb
      rw [hL] at hend ⊢
      rw [bytesAt_append] at hb
      obtain ⟨hbname, hb⟩ := hb
      rw [bytesAt_append] at hb
      obtain ⟨hbtype, hb⟩ := hb
      rw [show (u16Bytes n).length = 2 from rfl] at hb
      rw [bytesAt_append] at hb
      obtain ⟨hbclass, hb⟩ := hb
      rw [show (u16Bytes qclass).length = 2 from rfl] at hb
      rw [bytesAt_append] at hb
      obtain ⟨hbttl, hbrdlen⟩ := hb
      rw [show (u32Bytes ttl).length = 4 from rfl] at hbrdlen
      have h1 := read_qname_image hname hbname (by omega)
      have h2 := u16_bytesAt_read hbtype hn16 (by omega)
      have h3 := u16_bytesAt_read hbclass hclass (by omega)
      have h4 := u32_bytesAt_read hbttl httl (by omega)
      have h5 : read_u16 ⟨f, p + (qnameBytes name).length + 2 + 2 + 4⟩ =
          .ok (0, ⟨f, p + ((qnameBytes name).length + 10)⟩) := by
        rw [show p + ((qnameBytes name).length + 10) =
              p + (qnameBytes name).length + 2 + 2 + 4 + 2 by omega]
        exact u16_bytesAt_read hbrdlen (by omega) (by omega)
      have hrr : read_range 0 ⟨f, p + ((qnameBytes name).length + 10)⟩ =
          .ok ([], ⟨f, p + ((qnameBytes name).length + 10)⟩) := by
        simp [BytePacketBuffer.read_range, BUF_SIZE]
        omega
      unfold Record.read
      refine run_step h1 (run_step h2 (run_step h3 (run_step h4 (run_step h5 ?_))))
      rw [show (QueryType.fromU16 n) = QueryType.UNKNOWN n from hrt]
      refine run_step hrr (run_step (M.run_pure _ _) ?_)
      simp only [M.run_pure]
    | A => simp [QueryType.discr] at hdiscr
    | AAAA => simp [QueryType.discr] at hdiscr
    | CNAME => simp [QueryType.discr] at hdiscr
    | SRV => simp [QueryType.discr] at hdiscr

theorem readQuestions_image (qs : List Question) :
    ∀ (f : Nat → Nat) (p : Nat),
      (∀ q ∈ qs, validQuestion q = true) →
      bytesAt f p (questionsBytes qs) →
      p + (questionsBytes qs).length ≤ 512 →
      readQuestions qs.length ⟨f, p⟩ =
        .ok (qs, ⟨f, p + (questionsBytes qs).length⟩) := by
  induction qs with
  | nil =>
    intro f p _ _ _
    simp [readQuestions, questionsBytes]
  | cons q rest ih =>
    intro f p hval hbytes hend
    have hsplit : questionsBytes (q :: rest) = questionBytes q ++ questionsBytes rest := by
      simp [questionsBytes]
    rw [hsplit] at hbytes hend ⊢
    rw [bytesAt_append] at hbytes
    obtain ⟨hb1, hb2⟩ := hbytes
    rw [List.length_append] at hend ⊢
    have h1 := question_read_image q f p (hval q (by simp)) hb1 (by omega)
    have h2 : readQuestions rest.length ⟨f, p + (questionBytes q).length⟩ =
        .ok (rest, ⟨f, p + ((questionBytes q).length + (questionsBytes rest).length)⟩) := by
      rw [show p + ((questionBytes q).length + (questionsBytes rest).length) =
            p + (questionBytes q).length + (questionsBytes rest).length by omega]
      exact ih f (p + (questionBytes q).length) (fun x hx => hval x (by simp [hx])) hb2
        (by omega)
    rw [show (q :: rest).length = rest.length + 1 from rfl, readQuestions]
    refine run_step h1 (run_step h2 ?_)
    rw [M.run_pure]

theorem readRecords_image (rs : List Record) :
    ∀ (f : Nat → Nat) (p : Nat),
      (∀ r ∈ rs, validRecord r = true) →
      bytesAt f p (recordsBytes rs) →
      p + (recordsBytes rs).length < 512 →
      readRecords rs.length ⟨f, p⟩ =
        .ok (rs, ⟨f, p + (recordsBytes rs).length⟩) := by
  induction rs with
  | nil =>
    intro f p _ _ _
    simp [readRecords, recordsBytes]
  | cons r rest ih =>
    intro f p hval hbytes hend
    have hsplit : recordsBytes (r :: rest) = recordBytes r ++ recordsBytes rest := by
      simp [recordsBytes]
    rw [hsplit] at hbytes hend ⊢
    rw [bytesAt_append] at hbytes
    obtain ⟨hb1, hb2⟩ := hbytes
    rw [List.length_append] at hend ⊢
    have h1 := record_read_image r f p (hval r (by simp)) hb1 (by omega)
    have h2 : readRecords rest.length ⟨f, p + (recordBytes r).length⟩ =
        .ok (rest, ⟨f, p + ((recordBytes r).length + (recordsBytes rest).length)⟩) := by
      rw [show p + ((recordBytes r).length + (recordsBytes rest).length) =
            p + (recordBytes r).length + (recordsBytes rest).length by omega]
      exact ih f (p + (recordBytes r).length) (fun x hx => hval x (by simp [hx])) hb2
        (by omega)
    rw [show (r :: rest).length = rest.length + 1 from rfl, readRecords]
    refine run_step h1 (run_step h2 ?_)
    rw [M.run_pure]

/-- Reading back the bytes `Message::write` lays down restores the message
with its counters normalized to the group lengths. The end bound `≤ 511`
leaves the one byte of slack the strict `read_range` guard of the `Unknown`
rdata branch demands. -/
theorem message_read_image (m : Message) (f : Nat → Nat) (p : Nat)
    (hv : validMessage m = true) (hb : bytesAt f p (messageBytes m))
    (hend : p + (messageBytes m).length ≤ 511) :
    Message.read ⟨f, p⟩ = .ok (m.normalizeCounts, ⟨f, p + (messageBytes m).length⟩) := by
  simp only [validMessage, Bool.and_eq_true, decide_eq_true_eq, List.all_eq_true] at hv
  obtain ⟨⟨⟨⟨⟨⟨⟨⟨hvh, hql⟩, hal⟩, haul⟩, hrl⟩, hqv⟩, hav⟩, hauv⟩, hrv⟩ := hv
  have hsplit : messageBytes m =
      headerBytes m.normalizeCounts.header ++ (questionsBytes m.questions ++
        (recordsBytes m.answers ++ (recordsBytes m.authorities ++
          recordsBytes m.resources))) := by
    simp [messageBytes]
  have hhlen : (headerBytes m.normalizeCounts.header).length = 12 := by
    simp [headerBytes, u16Bytes]
  have hlen : (messageBytes m).length =
      12 + ((questionsBytes m.questions).length + ((recordsBytes m.answers).length +
        ((recordsBytes m.authorities).length + (recordsBytes m.resources).length))) := by
    rw [hsplit]
    simp [hhlen]
  rw [hsplit] at hb
  rw [hlen] at hend ⊢
  rw [bytesAt_append] at hb
  obtain ⟨hbh, hb⟩ := hb
  rw [hhlen] at hb
  rw [bytesAt_append] at hb
  obtain ⟨hbq, hb⟩ := hb
  rw [bytesAt_append] at hb
  obtain ⟨hba, hb⟩ := hb
  rw [bytesAt_append] at hb
  obtain ⟨hbau, hbr⟩ := hb
  have hH := header_read_image m.normalizeCounts.header f p hvh
    (Nat.mod_lt _ (by omega)) (Nat.mod_lt _ (by omega)) (Nat.mod_lt _ (by omega))
    (Nat.mod_lt _ (by omega)) hbh (by omega)
  have hQ : readQuestions (m.questions.length % 65536) ⟨f, p + 12⟩ =
      .ok (m.questions, ⟨f, p + 12 + (questionsBytes m.questions).length⟩) := by
    rw [Nat.mod_eq_of_lt hql]
    exact readQuestions_image m.questions f (p + 12) hqv hbq (by omega)
  have hA : readRecords (m.answers.length % 65536)
      ⟨f, p + 12 + (questionsBytes m.questions).length⟩ =
      .ok (m.answers, ⟨f, p + 12 + (questionsBytes m.questions).length +
        (recordsBytes m.answers).length⟩) := by
    rw [Nat.mod_eq_of_lt hal]
    exact readRecords_image m.answers f _ hav hba (by omega)
  have hAU : readRecords (m.authorities.length % 65536)
      ⟨f, p + 12 + (questionsBytes m.questions).length + (recordsBytes m.answers).length⟩ =
      .ok (m.authorities, ⟨f, p + 12 + (questionsBytes m.questions).length +
        (recordsBytes m.answers).length + (recordsBytes m.authorities).length⟩) := by
    rw [Nat.mod_eq_of_lt haul]
    exact readRecords_image m.authorities f _ hauv hbau (by omega)
  have hR : readRecords (m.resources.length % 65536)
      ⟨f, p + 12 + (questionsBytes m.questions).length + (recordsBytes m.answers).length +
        (recordsBytes m.authorities).length⟩ =
      .ok (m.resources, ⟨f, p + (12 + ((questionsBytes m.questions).length +
        ((recordsBytes m.answers).length + ((recordsBytes m.authorities).length +
          (recordsBytes m.resources).length))))⟩) := by
    rw [show p + (12 + ((questionsBytes m.questions).length +
          ((recordsBytes m.answers).length + ((recordsBytes m.authorities).length +
            (recordsBytes m.resources).length)))) =
          p + 12 + (questionsBytes m.questions).length + (recordsBytes m.answers).length +
            (recordsBytes m.authorities).length + (recordsBytes m.resources).length by omega]
    rw [Nat.mod_eq_of_lt hrl]
    exact readRecords_image m.resources f _ hrv hbr (by omega)
  unfold Message.read
  refine run_step hH (run_step hQ (run_step hA (run_step hAU (run_step hR ?_))))
  rw [M.run_pure]
  rfl

/-! ### Write success and the untouched upper region -/

theorem wrx_congr {w : M Unit} {bs1 bs2 : List Nat} {k1 k2 : Nat}
    (h : WRuns w bs1 k1) (hbs : bs1 = bs2) (hk : k1 = k2) : WRuns w bs2 k2 := by
  subst hbs
  subst hk
  exact h

theorem wrx_mono {w : M Unit} {bs : List Nat} {k1 k2 : Nat}
    (h : WRuns w bs k1) (hk : k1 ≤ k2) : WRuns w bs k2 := by
  intro f p hfit
  obtain ⟨g, hg, hu⟩ := h f p (by omega)
  exact ⟨g, hg, fun i hi => hu i (by omega)⟩

theorem wrx_pure : WRuns (pure ()) [] 0 := by
  intro f p hfit
  exact ⟨f, M.run_pure () ⟨f, p⟩, fun i _ => rfl⟩

theorem wrx_write (v : Nat) : WRuns (write v) [v % 256] 0 := by
  intro f p hfit
  refine ⟨fun j => if j = p then v % 256 else f j, write_at (by simp at hfit; omega) v, ?_⟩
  intro i hi
  have : i ≠ p := by simp at hi; omega
  simp [this]

theorem wrx_write_u8 (v : Nat) : WRuns (write_u8 v) [v % 256] 0 := wrx_write v

theorem wrx_write_range (v : List Nat) : WRuns (write_range v) [] v.length := by
  intro f p hfit
  simp only [List.length_nil, Nat.add_zero] at hfit ⊢
  refine ⟨fun j => if p ≤ j ∧ j < p + v.length then v.getD (j - p) 0 % 256 else f j, ?_, ?_⟩
  · unfold BytePacketBuffer.write_range
    rw [if_pos (show p + v.length < BUF_SIZE by simp [BUF_SIZE]; omega)]
  · intro i hi
    have : ¬(p ≤ i ∧ i < p + v.length) := by omega
    simp [this]

theorem wrx_bind {w1 w2 : M Unit} {bs1 bs2 : List Nat} {k1 k2 : Nat}
    (h1 : WRuns w1 bs1 k1) (h2 : WRuns w2 bs2 k2) :
    WRuns (do w1; w2) (bs1 ++ bs2) (max (k1 - bs2.length) k2) := by
  intro f p hfit
  rw [List.length_append] at hfit
  obtain ⟨g1, hg1, hu1⟩ := h1 f p (by omega)
  obtain ⟨g2, hg2, hu2⟩ := h2 g1 (p + bs1.length) (by omega)
  refine ⟨g2, ?_, ?_⟩
  · rw [List.length_append, show p + (bs1.length + bs2.length) =
        p + bs1.length + bs2.length by omega]
    exact run_seq hg1 hg2
  · intro i hi
    rw [List.length_append] at hi
    have hstep : g2 i = g1 i := hu2 i (by omega)
    rw [hstep]
    exact hu1 i (by omega)

/-- Sequencing after a slack-free writer keeps the tail's slack. -/
theorem wrx_seq {w1 w2 : M Unit} {bs1 bs2 : List Nat} {k : Nat}
    (h1 : WRuns w1 bs1 0) (h2 : WRuns w2 bs2 k) :
    WRuns (do w1; w2) (bs1 ++ bs2) k :=
  wrx_congr (wrx_bind h1 h2) rfl (by omega)

theorem wrx_write_u16 (v : Nat) : WRuns (write_u16 v) (u16Bytes v) 0 := by
  have h := wrx_seq (wrx_write (v >>> 8)) (wrx_write (v &&& 0xFF))
  exact wrx_congr h rfl (by omega)

theorem wrx_write_u32 (v : Nat) : WRuns (write_u32 v) (u32Bytes v) 0 := by
  have h := wrx_seq (wrx_write ((v >>> 24) &&& 0xFF))
    (wrx_seq (wrx_write ((v >>> 16) &&& 0xFF))
      (wrx_seq (wrx_write ((v >>> 8) &&& 0xFF)) (wrx_write (v &&& 0xFF))))
  exact wrx_congr h rfl (by omega)

theorem wrx_write_label_bytes (l : List Nat) :
    WRuns (write_label_bytes l) (l.map (· % 256)) 0 := by
  induction l with
  | nil => exact wrx_congr wrx_pure rfl rfl
  | cons b rest ih =>
    have h := wrx_seq (wrx_write_u8 b) ih
    exact wrx_congr h (by simp) (by omega)

theorem wrx_write_labels (ls : List (List Nat)) (hlab : ∀ l ∈ ls, l.length ≤ 63) :
    WRuns (write_labels ls) (labelsBytesCore ls) 0 := by
  induction ls with
  | nil => exact wrx_congr wrx_pure rfl rfl
  | cons l rest ih =>
    rw [write_labels, if_neg (by have := hlab l (by simp); omega)]
    have h := wrx_seq (wrx_write_u8 l.length)
      (wrx_seq (wrx_write_label_bytes l) (ih (fun x hx => hlab x (by simp [hx]))))
    refine wrx_congr h ?_ (by omega)
    simp [labelsBytesCore]

theorem wrx_write_qname (q : List Nat) (hlab : ∀ l ∈ splitDot q, l.length ≤ 63) :
    WRuns (write_qname q) (qnameBytes q) 0 := by
  have h := wrx_seq (wrx_write_labels (splitDot q) hlab) (wrx_write_u8 0)
  refine wrx_congr h ?_ (by omega)
  rw [qnameBytes, labelsBytes_eq]

theorem writableName_labels {q : List Nat} (h : writableName q = true) :
    ∀ l ∈ splitDot q, l.length ≤ 63 := by
  rw [writableName, List.all_eq_true] at h
  intro l hl
  have h2 := h l hl
  rwa [decide_eq_true_eq] at h2

theorem wrx_header (h : Header) : WRuns h.write (headerBytes h) 0 := by
  have hh := wrx_seq (wrx_write_u16 h.id)
    (wrx_seq (wrx_write_u8 (headerABits h))
      (wrx_seq (wrx_write_u8 (headerBBits h))
        (wrx_seq (wrx_write_u16 h.questions)
          (wrx_seq (wrx_write_u16 h.answers)
            (wrx_seq (wrx_write_u16 h.authoritative_entries)
              (wrx_write_u16 h.resource_entries))))))
  exact wrx_congr hh (by simp [headerBytes]) (by omega)

theorem wrx_question (q : Question) (hw : writableQuestion q = true) :
    WRuns q.write (questionBytes q) 0 := by
  have hh := wrx_seq (wrx_write_qname q.name (writableName_labels hw))
    (wrx_seq (wrx_write_u16 q.qtype.toU16) (wrx_write_u16 q.qclass))
  exact wrx_congr hh (by simp [questionBytes]) (by omega)

set_option maxHeartbeats 1600000 in
theorem wrx_record (r : Record) (hw : writableRecord r = true) :
    WRuns r.write (recordBytes r) (rdataPayloadLen r) := by
  obtain ⟨name, qtype, qclass, ttl, rdlen, rdata⟩ := r
  rw [writableRecord, Bool.and_eq_true] at hw
  obtain ⟨hwn, hwr⟩ := hw
  cases rdata with
  | A addr =>
    have hh := wrx_seq (wrx_write_qname name (writableName_labels hwn))
      (wrx_seq (wrx_write_u16 QueryType.A.toU16)
        (wrx_seq (wrx_write_u16 qclass)
          (wrx_seq (wrx_write_u32 ttl)
            (wrx_seq (wrx_write_u16 4)
              (wrx_seq (wrx_write_u8 addr.o0)
                (wrx_seq (wrx_write_u8 addr.o1)
                  (wrx_seq (wrx_write_u8 addr.o2) (wrx_write_u8 addr.o3))))))))
    exact wrx_congr hh (by simp [recordBytes, QueryType.toU16])
      (by simp only [rdataPayloadLen])
  | AAAA addr =>
    have hh := wrx_seq (wrx_write_qname name (writableName_labels hwn))
      (wrx_seq (wrx_write_u16 QueryType.AAAA.toU16)
        (wrx_seq (wrx_write_u16 qclass)
          (wrx_seq (wrx_write_u32 ttl)
            (wrx_seq (wrx_write_u16 16)
              (wrx_seq (wrx_write_u16 addr.s0)
                (wrx_seq (wrx_write_u16 addr.s1)
                  (wrx_seq (wrx_write_u16 addr.s2)
                    (wrx_seq (wrx_write_u16 addr.s3)
                      (wrx_seq (wrx_write_u16 addr.s4)
                        (wrx_seq (wrx_write_u16 addr.s5)
                          (wrx_seq (wrx_write_u16 addr.s6)
                            (wrx_write_u16 addr.s7))))))))))))
    exact wrx_congr hh (by simp [recordBytes, QueryType.toU16])
      (by simp only [rdataPayloadLen])
  | CNAME len name2 =>
    have hwn2 : writableName name2 = true := by simpa using hwr
    have hh := wrx_seq (wrx_write_qname name (writableName_labels hwn))
      (wrx_seq (wrx_write_u16 QueryType.CNAME.toU16)
        (wrx_seq (wrx_write_u16 qclass)
          (wrx_seq (wrx_write_u32 ttl)
            (wrx_seq (wrx_write_u16 len)
              (wrx_write_qname name2 (writableName_labels hwn2))))))
    exact wrx_congr hh (by simp [recordBytes, QueryType.toU16])
      (by simp only [rdataPayloadLen])
  | SRV len v =>
    have hwn2 : writableName v.target = true := by simpa using hwr
    have hh := wrx_seq (wrx_write_qname name (writableName_labels hwn))
      (wrx_seq (wrx_write_u16 QueryType.SRV.toU16)
        (wrx_seq (wrx_write_u16 qclass)
          (wrx_seq (wrx_write_u32 ttl)
            (wrx_seq (wrx_write_u16 len)
              (wrx_seq (wrx_write_u16 v.priority)
                (wrx_seq (wrx_write_u16 v.weight)
                  (wrx_seq (wrx_write_u16 v.port)
                    (wrx_write_qname v.target (writableName_labels hwn2)))))))))
    exact wrx_congr hh (by simp [recordBytes, QueryType.toU16])
      (by simp only [rdataPayloadLen])
  | Unknown qt v =>
    have hh := wrx_seq (wrx_write_qname name (writableName_labels hwn))
      (wrx_seq (wrx_write_u16 qt.toU16)
        (wrx_seq (wrx_write_u16 qclass)
          (wrx_seq (wrx_write_u32 ttl)
            (wrx_seq (wrx_write_u16 v.length)
              (wrx_write_range v)))))
    refine wrx_congr hh (by simp [recordBytes]) ?_
    simp only [rdataPayloadLen]

theorem wrx_questions (qs : List Question) (hw : ∀ q ∈ qs, writableQuestion q = true) :
    WRuns (writeQuestions qs) (questionsBytes qs) 0 := by
  induction qs with
  | nil => exact wrx_congr wrx_pure (by simp [questionsBytes]) rfl
  | cons q rest ih =>
    have h := wrx_seq (wrx_question q (hw q (by simp)))
      (ih (fun x hx => hw x (by simp [hx])))
    exact wrx_congr h (by simp [questionsBytes]) (by omega)

theorem wrx_records (rs : List Record) (hw : ∀ r ∈ rs, writableRecord r = true) :
    WRuns (writeRecords rs) (recordsBytes rs) (recordsWriteSlack rs) := by
  induction rs with
  | nil => exact wrx_congr wrx_pure (by simp [recordsBytes]) rfl
  | cons r rest ih =>
    have h := wrx_bind (wrx_record r (hw r (by simp)))
      (ih (fun x hx => hw x (by simp [hx])))
    exact wrx_congr h (by simp [recordsBytes]) (by rw [recordsWriteSlack])

theorem wrx_message (m : Message) (hw : writableMessage m = true) :
    WRuns m.write (messageBytes m) (messageWriteSlack m) := by
  rw [writableMessage, Bool.and_eq_true, Bool.and_eq_true, Bool.and_eq_true,
      List.all_eq_true, List.all_eq_true, List.all_eq_true, List.all_eq_true] at hw
  obtain ⟨⟨⟨hq, ha⟩, hau⟩, hr⟩ := hw
  have hh := wrx_bind (wrx_header m.normalizeCounts.header)
    (wrx_bind (wrx_questions m.questions hq)
      (wrx_bind (wrx_records m.answers ha)
        (wrx_bind (wrx_records m.authorities hau)
          (wrx_records m.resources hr))))
  refine wrx_congr hh (by simp [messageBytes]) ?_
  rw [messageWriteSlack]
  simp only [List.length_append]
  omega

/-- A successful slack-free write from a fresh buffer leaves exactly the
image, zeros elsewhere: the result is the `bufOf` array of the byte
image. -/
theorem writeResultBuf_explicit (m : Message) (hw : writableMessage m = true)
    (hk : messageWriteSlack m = 0) (hfit : (messageBytes m).length ≤ 511) :
    writeResultBuf m =
      some ⟨bufOf (messageBytes m), (messageBytes m).length⟩ := by
  obtain ⟨g, hg, hu⟩ := wrx_message m hw (fun _ => 0) 0 (by omega)
  have hg2 : Message.write m BytePacketBuffer.new =
      .ok ((), ⟨g, 0 + (messageBytes m).length⟩) := hg
  have hsh := writerOk_message m BytePacketBuffer.new ⟨g, 0 + (messageBytes m).length⟩
    (by decide) hg2
  have hfun : g = bufOf (messageBytes m) := by
    funext i
    by_cases hi : i < (messageBytes m).length
    · have h2 := hsh.image i hi
      simpa [bufOf, BytePacketBuffer.new] using h2
    · have h2 := hu i (by omega)
      rw [h2, bufOf]
      rw [List.getD_eq_default _ _ (by omega)]
  rw [writeResultBuf, hg2, hfun]
  simp

theorem writableName_of_validName {q : List Nat} (h : validName q = true) :
    writableName q = true := by
  rw [validName, Bool.and_eq_true, List.all_eq_true] at h
  obtain ⟨h1, _⟩ := h
  rw [writableName, List.all_eq_true]
  intro l hl
  have h2 := h1 l hl
  rw [validLabel, Bool.and_eq_true, Bool.and_eq_true, decide_eq_true_eq,
      decide_eq_true_eq] at h2
  rw [decide_eq_true_eq]
  exact h2.1.2

theorem writableRecord_of_valid {r : Record} (h : validRecord r = true) :
    writableRecord r = true := by
  obtain ⟨name, qtype, qclass, ttl, rdlen, rdata⟩ := r
  simp only [validRecord, Bool.and_eq_true, decide_eq_true_eq] at h
  obtain ⟨⟨⟨hname, _⟩, _⟩, hrd⟩ := h
  rw [writableRecord, Bool.and_eq_true]
  refine ⟨writableName_of_validName hname, ?_⟩
  cases rdata with
  | CNAME len n2 =>
    simp only [validRData, Bool.and_eq_true, decide_eq_true_eq] at hrd
    exact writableName_of_validName hrd.2
  | SRV len v =>
    simp only [validRData, Bool.and_eq_true, decide_eq_true_eq] at hrd
    exact writableName_of_validName hrd.2
  | A addr => rfl
  | AAAA addr => rfl
  | Unknown qt v => rfl

theorem rdataPayloadLen_of_valid {r : Record} (h : validRecord r = true) :
    rdataPayloadLen r = 0 := by
  obtain ⟨name, qtype, qclass, ttl, rdlen, rdata⟩ := r
  cases rdata with
  | Unknown qt v =>
    simp only [validRecord, validRData, Bool.and_eq_true, decide_eq_true_eq] at h
    have hve := h.2.1.2
    rw [rdataPayloadLen]
    cases v with
    | nil => rfl
    | cons b rest => simp [List.isEmpty] at hve
  | A addr => rfl
  | AAAA addr => rfl
  | CNAME len n2 => rfl
  | SRV len v => rfl

theorem recordsWriteSlack_of_valid {rs : List Record}
    (h : ∀ r ∈ rs, validRecord r = true) : recordsWriteSlack rs = 0 := by
  induction rs with
  | nil => rfl
  | cons r rest ih =>
    rw [recordsWriteSlack, rdataPayloadLen_of_valid (h r (by simp)),
        ih (fun x hx => h x (by simp [hx]))]
    omega

/-- C3 (amended): decoding the bytes produced by `Message::write(m)` on a
fresh buffer yields `m` with its four header section counters normalized to
the group lengths, for every valid message `m` — where valid additionally
requires (beyond the claim's field-width and no-compression conditions)
that every `Unknown` record has an empty rdata payload (`write_range` does
not advance the cursor, so a nonempty payload is silently overwritten) and
that the encoding takes at most 511 bytes (the strict `read_range` guard
rejects a decode ending exactly at offset 512). The claim as stated, over
all valid messages representable in 512 bytes, is refuted by
`c3_message_roundtrip_counterexample`. -/
theorem c3_message_roundtrip (m : Message) (hv : validMessage m = true)
    (hfit : (messageBytes m).length ≤ 511) :
    decodeOfWrite m = .ok m.normalizeCounts := by
  have hwm : writableMessage m = true := by
    rw [validMessage, Bool.and_eq_true, Bool.and_eq_true, Bool.and_eq_true,
        Bool.and_eq_true, Bool.and_eq_true, Bool.and_eq_true, Bool.and_eq_true,
        Bool.and_eq_true] at hv
    obtain ⟨⟨⟨⟨⟨⟨⟨⟨_, _⟩, _⟩, _⟩, _⟩, hqv⟩, hav⟩, hauv⟩, hrv⟩ := hv
    rw [List.all_eq_true] at hqv hav hauv hrv
    rw [writableMessage, Bool.and_eq_true, Bool.and_eq_true, Bool.and_eq_true,
        List.all_eq_true, List.all_eq_true, List.all_eq_true, List.all_eq_true]
    refine ⟨⟨⟨fun q hq => ?_, fun r hr => ?_⟩, fun r hr => ?_⟩, fun r hr => ?_⟩
    · have h2 := hqv q hq
      rw [validQuestion, Bool.and_eq_true, Bool.and_eq_true] at h2
      obtain ⟨⟨hn, _⟩, _⟩ := h2
      exact writableName_of_validName hn
    · exact writableRecord_of_valid (hav r hr)
    · exact writableRecord_of_valid (hauv r hr)
    · exact writableRecord_of_valid (hrv r hr)
  have hk : messageWriteSlack m = 0 := by
    rw [validMessage, Bool.and_eq_true, Bool.and_eq_true, Bool.and_eq_true,
        Bool.and_eq_true, Bool.and_eq_true, Bool.and_eq_true, Bool.and_eq_true,
        Bool.and_eq_true] at hv
    obtain ⟨⟨⟨⟨⟨⟨⟨⟨_, _⟩, _⟩, _⟩, _⟩, _⟩, hav⟩, hauv⟩, hrv⟩ := hv
    rw [List.all_eq_true] at hav hauv hrv
    rw [messageWriteSlack,
        recordsWriteSlack_of_valid hav, recordsWriteSlack_of_valid hauv,
        recordsWriteSlack_of_valid hrv]
    omega
  have hres := writeResultBuf_explicit m hwm hk hfit
  have himg : bytesAt (bufOf (messageBytes m)) 0 (messageBytes m) := by
    intro i hi
    simp [bufOf]
  have hread := message_read_image m (bufOf (messageBytes m)) 0 hv himg (by omega)
  rw [decodeOfWrite, hres]
  show readMsg ⟨bufOf (messageBytes m), 0⟩ = .ok m.normalizeCounts
  rw [readMsg, hread]

/-- C3 counterexample: a message that is representable in 512 bytes and
valid in the claim's sense — in-range fields, uncompressed lowercase names
— but whose first answer is an `Unknown` record with a one-byte payload.
`write_range` leaves the cursor behind, the next record overwrites the
payload, and decoding the written bytes yields a different message: the
payload comes back as `[1]` instead of `[7]` and the second record is
misparsed from one byte into its image. -/
theorem c3_message_roundtrip_counterexample :
    (messageBytes unknownPayloadMsg).length ≤ 511 ∧
    decodeOfWrite unknownPayloadMsg ≠ .ok unknownPayloadMsg.normalizeCounts := by
  have hbytes : messageBytes unknownPayloadMsg = upBytes := by decide
  have hres := writeResultBuf_explicit unknownPayloadMsg (by decide) (by decide)
    (by decide)
  rw [hbytes] at hres
  have hH : Header.read ⟨bufOf upBytes, 0⟩ = .ok (cxHdr, ⟨bufOf upBytes, 12⟩) := rfl
  have hQ : readQuestions 0 ⟨bufOf upBytes, 12⟩ = .ok ([], ⟨bufOf upBytes, 12⟩) := rfl
  have hR1 : Record.read ⟨bufOf upBytes, 12⟩ = .ok (cxRec1, ⟨bufOf upBytes, 26⟩) := rfl
  have hR2 : readRecords 1 ⟨bufOf upBytes, 26⟩ =
      .ok ([cxRec2], ⟨bufOf upBytes, 136⟩) := rfl
  have hR0 : readRecords 0 ⟨bufOf upBytes, 136⟩ = .ok ([], ⟨bufOf upBytes, 136⟩) := rfl
  have hRs : readRecords 2 ⟨bufOf upBytes, 12⟩ =
      .ok ([cxRec1, cxRec2], ⟨bufOf upBytes, 136⟩) := by
    rw [show (2 : Nat) = 1 + 1 from rfl, readRecords]
    refine run_step hR1 (run_step hR2 ?_)
    rw [M.run_pure]
  have hM : Message.read ⟨bufOf upBytes, 0⟩ = .ok (cxDecoded, ⟨bufOf upBytes, 136⟩) := by
    unfold Message.read
    refine run_step hH (run_step hQ (run_step hRs (run_step hR0 (run_step hR0 ?_))))
    rw [M.run_pure]
    rfl
  refine ⟨by rw [hbytes]; decide, ?_⟩
  intro hcontra
  rw [decodeOfWrite, hres] at hcontra
  have hcontra2 : readMsg ⟨bufOf upBytes, 0⟩ =
      .ok unknownPayloadMsg.normalizeCounts := hcontra
  rw [readMsg, hM] at hcontra2
  exact absurd hcontra2 (by decide)

/-- C3 witness: the round-trip theorem evaluated on a concrete valid
message touching every record variant. -/
theorem c3_message_roundtrip_witness :
    (validMessage witnessMsg = true ∧ (messageBytes witnessMsg).length ≤ 511) ∧
    decodeOfWrite witnessMsg = .ok witnessMsg.normalizeCounts :=
  ⟨⟨by decide, by decide⟩, c3_message_roundtrip witnessMsg (by decide) (by decide)⟩

/-! ### The error-response path of `on_recv` -/

theorem get_all_bufOf (bs : List Nat) (h : bs.length < 512) :
    BytePacketBuffer.get_all ⟨bufOf bs, bs.length⟩ = .ok bs := by
  unfold BytePacketBuffer.get_all
  rw [if_pos (show bs.length < BUF_SIZE from h)]
  have hb : bytesAt (bufOf bs) 0 bs := by
    intro i hi
    simp [bufOf]
  have h2 := map_range_of_bytesAt hb
  simp only [Nat.zero_add] at h2
  rw [h2]

theorem mkErrorRespMsg_len (req : Message) (rc : ResultCode) :
    (messageBytes (mkErrorRespMsg req rc)).length = 12 := by
  simp [messageBytes, headerBytes, u16Bytes, questionsBytes, recordsBytes,
        mkErrorRespMsg, Message.new, Message.normalizeCounts]

theorem make_error_resp_msg_eq (req : Message) (rc : ResultCode) :
    make_error_resp_msg req rc =
      .ok (mkErrorRespMsg req rc,
           ⟨bufOf (messageBytes (mkErrorRespMsg req rc)),
            (messageBytes (mkErrorRespMsg req rc)).length⟩) := by
  have hres := writeResultBuf_explicit (mkErrorRespMsg req rc) rfl rfl
    (by rw [mkErrorRespMsg_len]; omega)
  have hW : (mkErrorRespMsg req rc).write BytePacketBuffer.new =
      .ok ((), ⟨bufOf (messageBytes (mkErrorRespMsg req rc)),
                (messageBytes (mkErrorRespMsg req rc)).length⟩) := by
    rw [writeResultBuf] at hres
    cases hmw : (mkErrorRespMsg req rc).write BytePacketBuffer.new with
    | ok v =>
      rw [hmw] at hres
      obtain ⟨u, s⟩ := v
      rw [Option.some.injEq] at hres
      rw [hres]
    | err e => rw [hmw] at hres; cases hres
    | crash => rw [hmw] at hres; cases hres
  rw [make_error_resp_msg, hW]

theorem errorResp_get_all (req : Message) (rc : ResultCode) :
    BytePacketBuffer.get_all
      ⟨bufOf (messageBytes (mkErrorRespMsg req rc)),
       (messageBytes (mkErrorRespMsg req rc)).length⟩ =
      .ok (messageBytes (mkErrorRespMsg req rc)) :=
  get_all_bufOf _ (by rw [mkErrorRespMsg_len]; omega)

theorem onRecv_deny_eq (req : Message) (lr : LookupResult) (q : Question)
    (hlast : req.questions.getLast? = some q)
    (htype : q.qtype = QueryType.A ∨ q.qtype = QueryType.AAAA) :
    onRecv req .Deny lr = .ok (messageBytes (mkErrorRespMsg req .NXDomain), []) := by
  obtain ⟨qn, qt, qc⟩ := q
  rcases htype with h | h <;>
  · subst h
    simp [onRecv, hlast, make_error_resp_msg_eq, errorResp_get_all]

/-- C1 (amended): when classification of an A/AAAA question returns `Deny`,
the server synthesizes and sends a response mirroring the request id,
recursion flags and QR bit with `rcode = NXDomain` — but, against the
claim, the `Deny` arm emits NO event at all (the event-emitting error
response belongs to the `NotFound` arm); the claimed Deny event is refuted
by `c1_deny_event_counterexample`. -/
theorem c1_deny_no_event (req : Message) (lr : LookupResult) (q : Question)
    (hlast : req.questions.getLast? = some q)
    (htype : q.qtype = QueryType.A ∨ q.qtype = QueryType.AAAA) :
    onRecv req .Deny lr = .ok (messageBytes (mkErrorRespMsg req .NXDomain), []) ∧
    (mkErrorRespMsg req .NXDomain).header.id = req.header.id ∧
    (mkErrorRespMsg req .NXDomain).header.recursion_desired =
      req.header.recursion_desired ∧
    (mkErrorRespMsg req .NXDomain).header.recursion_available =
      req.header.recursion_available ∧
    (mkErrorRespMsg req .NXDomain).header.response = req.header.response ∧
    (mkErrorRespMsg req .NXDomain).header.rescode = .NXDomain :=
  ⟨onRecv_deny_eq req lr q hlast htype, rfl, rfl, rfl, rfl, rfl⟩

/-- C1 counterexample: for a concrete denied A request the pipeline emits
no event whatsoever, where the claim requires a `Deny` event carrying a
`ResolvedData` with no answers. -/
theorem c1_deny_event_counterexample :
    onRecvEvents reqA .Deny none = .ok [] := by
  have h := onRecv_deny_eq reqA none ⟨[97], .A, 1⟩ (by decide) (Or.inl rfl)
  rw [onRecvEvents, h]

/-- C1 witness: the amended theorem at the concrete denied A request. -/
theorem c1_deny_no_event_witness :
    (reqA.questions.getLast? = some ⟨[97], .A, 1⟩ ∧
      ((⟨[97], .A, 1⟩ : Question).qtype = QueryType.A ∨
        (⟨[97], .A, 1⟩ : Question).qtype = QueryType.AAAA)) ∧
    (onRecv reqA .Deny none =
        .ok (messageBytes (mkErrorRespMsg reqA .NXDomain), []) ∧
      (mkErrorRespMsg reqA .NXDomain).header.id = reqA.header.id ∧
      (mkErrorRespMsg reqA .NXDomain).header.recursion_desired =
        reqA.header.recursion_desired ∧
      (mkErrorRespMsg reqA .NXDomain).header.recursion_available =
        reqA.header.recursion_available ∧
      (mkErrorRespMsg reqA .NXDomain).header.response = reqA.header.response ∧
      (mkErrorRespMsg reqA .NXDomain).header.rescode = .NXDomain) :=
  ⟨⟨by decide, Or.inl rfl⟩,
   c1_deny_no_event reqA none ⟨[97], .A, 1⟩ (by decide) (Or.inl rfl)⟩

/-- C2 (code bug, per the claim): when the upstream lookup fails for an
allowed A/AAAA question, `Runner::lookup` returns `Ok(AllowButError(_,
ServFail))` WITHOUT writing anything into `raw_buf`, and `on_recv` then
sends the EMPTY datagram to the client: no ServFail response is
synthesized and the client does not receive a well-formed DNS response. -/
theorem c2_upstream_failure_empty_reply (req : Message) (q : Question)
    (hlast : req.questions.getLast? = some q)
    (htype : q.qtype = QueryType.A ∨ q.qtype = QueryType.AAAA) :
    onRecv req .Allow none =
      .ok ([], [.resolved (.AllowButError (ResolvedData.new q.qtype q.name)
                            .ServFail)]) := by
  obtain ⟨qn, qt, qc⟩ := q
  rcases htype with h | h <;>
  · subst h
    simp [onRecv, hlast, runnerLookup]

/-- C2 witness: the failed-upstream path at the concrete allowed A
request: the datagram sent back is empty. -/
theorem c2_upstream_failure_empty_reply_witness :
    (reqA.questions.getLast? = some ⟨[97], .A, 1⟩ ∧
      ((⟨[97], .A, 1⟩ : Question).qtype = QueryType.A ∨
        (⟨[97], .A, 1⟩ : Question).qtype = QueryType.AAAA)) ∧
    onRecv reqA .Allow none =
      .ok ([], [.resolved (.AllowButError (ResolvedData.new QueryType.A [97])
                            .ServFail)]) :=
  ⟨⟨by decide, Or.inl rfl⟩,
   c2_upstream_failure_empty_reply reqA ⟨[97], .A, 1⟩ (by decide) (Or.inl rfl)⟩

/-! ### C9: the delete frame property -/

/-- C9: for every argument string, `delete(name)` returns 1 exactly when
the name is in the exact-name map and removes it from there; the pattern
map `wnames` and the file path are untouched — in particular for arguments
that literally contain `*`. -/
theorem c9_delete_frame (l : InMemoryAllowList) (name : String) :
    ((l.delete name).1 = if name ∈ l.names then 1 else 0) ∧
    ((l.delete name).2.names =
      if name ∈ l.names then l.names.erase name else l.names) ∧
    (l.delete name).2.wnames = l.wnames ∧
    (l.delete name).2.path = l.path := by
  unfold InMemoryAllowList.delete
  by_cases h : name ∈ l.names <;> simp [h]

/-! ### C7: the ipctl save reply in in-memory mode -/

/-- C7 (amended): with no file path attached, `save()` fails with
`SaveButInMemory`, but only the error-level LOG line reports the failure
verbatim ("Failed to save allowlist: In-memory mode"); the REPLY line sent
back over ipctl is just "Failed to save allowlist" without the underlying
reason, refuting the claim's reply text (see
`c7_save_reply_counterexample`). -/
theorem c7_save_in_memory (c : CompositeCheckList)
    (hpath : c.allowlist.path = none) :
    c.allowlist.save = .error .SaveButInMemory ∧
    ipctlReply "save" c = "Failed to save allowlist" ∧
    ipctlLog "save" c = [.errorMsg "Failed to save allowlist: In-memory mode"] := by
  have hsave : c.allowlist.save = .error .SaveButInMemory := by
    unfold InMemoryAllowList.save
    rw [hpath]
  have hkey : on_ipctl "save" c =
      (match c.allowlist.save with
       | .ok _ => ("AllowList is saved", c, [.infoMsg "AllowList is saved"])
       | .error e => ("Failed to save allowlist", c,
                      [.errorMsg ("Failed to save allowlist: " ++ e.display)])) := rfl
  refine ⟨hsave, ?_, ?_⟩
  · rw [ipctlReply, hkey, hsave]
  · rw [ipctlLog, hkey, hsave]
    rfl

/-- C7 counterexample: for the concrete in-memory checklist the ipctl
reply is NOT the claimed verbatim text. -/
theorem c7_save_reply_counterexample :
    ipctlReply "save" inMemoryCkl ≠ "Failed to save allowlist: In-memory mode" := by
  decide

/-- C7 witness: the amended theorem at the concrete in-memory checklist. -/
theorem c7_save_in_memory_witness :
    inMemoryCkl.allowlist.path = none ∧
    (inMemoryCkl.allowlist.save = .error .SaveButInMemory ∧
      ipctlReply "save" inMemoryCkl = "Failed to save allowlist" ∧
      ipctlLog "save" inMemoryCkl =
        [.errorMsg "Failed to save allowlist: In-memory mode"]) :=
  ⟨rfl, c7_save_in_memory inMemoryCkl rfl⟩

/-! ### C8: the rate-limited event sink -/

theorem satAdd1_le (c : Nat) : satAdd1 c ≤ USIZE_MAX := by
  rw [satAdd1]
  exact Nat.min_le_right _ _

theorem min_satShift (M c i : Nat) : min (min (c + 1) M + i) M = min (c + 1 + i) M := by
  omega

theorem min_idL (M x : Nat) (h : x ≤ M) : min (x + 0) M = x := by
  omega

theorem min_zeroL (M : Nat) : min 0 M = 0 := by
  omega

theorem c8_aux (N : Nat) (code : ResolvedData → Nat) (d : ResolvedData)
    (rc : ResultCode) :
    ∀ (j c : Nat), c ≤ USIZE_MAX →
      LFFResolveEvent.runList ⟨N, [(code d, c)], false, false⟩ code
          (List.replicate j (.Deny d rc)) =
        (⟨N, [(code d, min (c + j) USIZE_MAX)], false, false⟩,
         (List.range j).map (fun i =>
           (if min (c + i) USIZE_MAX < N then [LffOut.infoStatus (.Deny d rc)]
            else []) ++
           (if min (c + i) USIZE_MAX + 1 = N then [LffOut.warnSuppressed]
            else []))) := by
  intro j
  induction j with
  | zero =>
    intro c hc
    rw [show List.replicate 0 (ResolvedStatus.Deny d rc) = [] from rfl,
        LFFResolveEvent.runList]
    rw [min_idL USIZE_MAX c hc]
    simp
  | succ j ih =>
    intro c hc
    rw [show List.replicate (j + 1) (ResolvedStatus.Deny d rc) =
          .Deny d rc :: List.replicate j (.Deny d rc) from rfl,
        LFFResolveEvent.runList]
    have hr1 : LFFResolveEvent.resolved ⟨N, [(code d, c)], false, false⟩ code
        (.Deny d rc) =
        (⟨N, [(code d, satAdd1 c)], false, false⟩,
         (if c < N then [LffOut.infoStatus (.Deny d rc)] else []) ++
         (if c + 1 = N then [LffOut.warnSuppressed] else [])) := by
      rw [LFFResolveEvent.resolved]
      simp [lookupCount, setCount]
    rw [hr1, ih (satAdd1 c) (satAdd1_le c)]
    have hstate : min (satAdd1 c + j) USIZE_MAX = min (c + (j + 1)) USIZE_MAX := by
      rw [satAdd1, min_satShift]
      congr 1
      omega
    have hshift : ∀ i : Nat, min (satAdd1 c + i) USIZE_MAX =
        min (c + (i + 1)) USIZE_MAX := by
      intro i
      rw [satAdd1, min_satShift]
      congr 1
      omega
    rw [List.range_succ_eq_map, List.map_cons, List.map_map]
    simp only [hstate, hshift]
    rw [min_idL USIZE_MAX c hc]
    refine Prod.ext rfl ?_
    simp only [Function.comp]
    rfl

/-- C8 (amended): per fingerprint, the threshold-N sink forwards the first
N non-ignored events, and the one-time suppression warning accompanies the
N-th forwarded event (when the counter reaches the threshold), NOT a
separate (N+1)-th event — from the (N+1)-th on, nothing is emitted; the
per-fingerprint counter increments with saturating addition and never
wraps, capping at `usize::MAX`. The claimed warning on the (N+1)-th event
is refuted by `c8_warn_position_counterexample`. -/
theorem c8_rate_limit (N : Nat) (code : ResolvedData → Nat) (d : ResolvedData)
    (rc : ResultCode) (j : Nat) :
    LFFResolveEvent.runList ⟨N, [], false, false⟩ code
        (List.replicate j (.Deny d rc)) =
      (⟨N, if j = 0 then [] else [(code d, min j USIZE_MAX)], false, false⟩,
       (List.range j).map (fun i =>
         (if min i USIZE_MAX < N then [LffOut.infoStatus (.Deny d rc)] else []) ++
         (if min i USIZE_MAX + 1 = N then [LffOut.warnSuppressed] else []))) := by
  cases j with
  | zero => rfl
  | succ j =>
    rw [if_neg (Nat.succ_ne_zero j)]
    rw [show List.replicate (j + 1) (ResolvedStatus.Deny d rc) =
          .Deny d rc :: List.replicate j (.Deny d rc) from rfl,
        LFFResolveEvent.runList]
    have hr1 : LFFResolveEvent.resolved ⟨N, [], false, false⟩ code (.Deny d rc) =
        (⟨N, [(code d, satAdd1 0)], false, false⟩,
         (if 0 < N then [LffOut.infoStatus (.Deny d rc)] else []) ++
         (if 0 + 1 = N then [LffOut.warnSuppressed] else [])) := by
      rw [LFFResolveEvent.resolved]
      simp [lookupCount, setCount]
    rw [hr1, c8_aux N code d rc j (satAdd1 0) (satAdd1_le 0)]
    have hsat0 : satAdd1 0 = 1 := by decide
    have hstate : min (satAdd1 0 + j) USIZE_MAX = min (j + 1) USIZE_MAX := by
      rw [hsat0]
      congr 1
      omega
    have hshift : ∀ i : Nat, min (satAdd1 0 + i) USIZE_MAX =
        min (i + 1) USIZE_MAX := by
      intro i
      rw [hsat0]
      congr 1
      omega
    rw [List.range_succ_eq_map, List.map_cons, List.map_map]
    simp only [hstate, hshift]
    rw [min_zeroL USIZE_MAX]
    refine Prod.ext rfl ?_
    simp only [Function.comp]
    rfl

/-- C8 counterexample: with threshold 3 the suppression warning arrives
together with the third forwarded event; the fourth event emits nothing at
all, where the claim places the sole warning. -/
theorem c8_warn_position_counterexample :
    (lffSink3.runList (fun _ => 0) (List.replicate 4 denyStatus)).2 =
      [[.infoStatus denyStatus], [.infoStatus denyStatus],
       [.infoStatus denyStatus, .warnSuppressed], []] := by
  decide

end LDF
